import Mathlib

/-!
# Memory game for kids: the game engine and the storage adapter

A shallow embedding of `src/js/game.js` and `src/js/storage.js`.

Modelling conventions.

* JavaScript numbers that the game computes (moves, score, matched pairs, stars) are small
  non-negative integers and are modelled by `Nat`. The numbers of the storage adapter are
  `Num`: the integer-valued double-precision numbers, `NaN` and the two infinities, with
  `parseInt` and `a + 1` rounding to the nearest number and `toString` printing the shortest
  decimal, in exponent notation from `10^21` on.
* A JavaScript array is a `List`; `a[i]` is `a[i]?`, with `none` for `undefined`.
* A function that can raise a `TypeError` (reading a property of `undefined`) returns an
  `Option`, with `none` for the raised error.  The storage adapter, whose point is its
  `try`/`catch`, lives in the `Except` monad instead.
* `Math.random` is an input: `rnd i` is the value of `Math.floor(Math.random() * (i + 1))`
  drawn by the shuffle in the iteration with loop index `i`, so `rnd i ≤ i`.
* Calls into the presentation layer (DOM updates, the feedback message and its clearing
  timer, audio, confetti, the console) do not touch the game state and are left out; the DOM
  elements of the cards on the board are taken to exist.
* `setTimeout` puts a callback in the list of pending timers of the `World`; a pending timer
  may fire at any later moment.  Calls that leave the engine (`setTimeout`, `GameStorage`)
  are also appended to a log, in the order in which they are made.
-/

namespace MemoryGame

/-! ## Configuration -/

/-- The three difficulty presets, the keys of `GAME_CONFIG`. -/
inductive Level where
  | easy
  | medium
  | hard
  deriving DecidableEq

/-- One entry of `GAME_CONFIG`. -/
structure Config where
  pairs : Nat
  gridClass : String
  flipSpeed : Nat
  matchDelay : Nat
  deriving DecidableEq

/-- The table `GAME_CONFIG`. -/
def GAME_CONFIG : Level → Config
  | .easy => { pairs := 6, gridClass := "easy", flipSpeed := 600, matchDelay := 800 }
  | .medium => { pairs := 12, gridClass := "medium", flipSpeed := 500, matchDelay := 700 }
  | .hard => { pairs := 20, gridClass := "hard", flipSpeed := 400, matchDelay := 600 }

/-- The lookup `GAME_CONFIG[gameState.currentLevel]`, `undefined` while the level is `null`. -/
def configOf (currentLevel : Option Level) : Option Config :=
  currentLevel.map GAME_CONFIG

/-- The catalog `CARD_EMOJIS`. -/
def CARD_EMOJIS : List String :=
  ["🐶", "🐱", "🐭", "🐹", "🐰", "🦊",
   "🐻", "🐼", "🐨", "🐯", "🦁", "🐮",
   "🐷", "🐸", "🐵", "🐔", "🐧", "🐦",
   "🦆", "🦉", "🦋", "🐝", "🐞", "🦄",
   "🌈", "⭐", "🌸", "🌺", "🌻", "🌼"]

/-! ## Game state -/

/-- An element of `gameState.cards`. -/
structure Card where
  id : Nat
  value : String
  isFlipped : Bool
  isMatched : Bool
  deriving DecidableEq

/-- The object `gameState`. -/
structure GameState where
  currentLevel : Option Level
  cards : List Card
  flippedCards : List Nat
  matchedPairs : Nat
  moves : Nat
  score : Nat
  isChecking : Bool
  stars : Nat
  deriving DecidableEq

/-- The callbacks that the engine hands to `setTimeout`. -/
inductive Callback where
  | handleMatch (cardId1 cardId2 : Nat)
  | handleNoMatch (cardId1 cardId2 : Nat)
  | completeGame
  deriving DecidableEq

/-- A call that leaves the engine. -/
inductive Effect where
  | setTimeout (callback : Callback) (delay : Nat)
  | saveLastLevel (level : Level)
  | incrementGamesPlayed
  | saveBestScore (score : Nat)
  deriving DecidableEq

/-- The game state together with the timers that are pending and the calls made so far. -/
structure World where
  gameState : GameState
  timers : List Callback
  log : List Effect
  deriving DecidableEq

/-- The value of `gameState` when the page is loaded. -/
def initialGameState : GameState :=
  { currentLevel := none, cards := [], flippedCards := [], matchedPairs := 0, moves := 0,
    score := 0, isChecking := false, stars := 3 }

/-- The world when the page is loaded: nothing pending, nothing called. -/
def initialWorld : World :=
  { gameState := initialGameState, timers := [], log := [] }

/-- The call `setTimeout(callback, delay)`. -/
def World.setTimeout (w : World) (callback : Callback) (delay : Nat) : World :=
  { w with timers := w.timers ++ [callback], log := w.log ++ [Effect.setTimeout callback delay] }

/-! ## Shuffle -/

/-- The destructuring swap `[a[i], a[j]] = [a[j], a[i]]`.  The shuffle only calls it with both
indices inside the array; the last branch is never taken there. -/
def swap {α : Type} (a : List α) (i j : Nat) : List α :=
  match a[i]?, a[j]? with
  | some x, some y => (a.set i y).set j x
  | _, _ => a

/-- The loop of `shuffleArray`, entered with loop index `i`: it runs while `i > 0`. -/
def shuffleLoop {α : Type} (rnd : Nat → Nat) : Nat → List α → List α
  | 0, shuffled => shuffled
  | i + 1, shuffled => shuffleLoop rnd i (swap shuffled (i + 1) (rnd (i + 1)))

/-- The function `shuffleArray`, as a function of the array contents. -/
def shuffleArray {α : Type} (rnd : Nat → Nat) (array : List α) : List α :=
  shuffleLoop rnd (array.length - 1) array

/-- The array objects of the program, named by their position: a reference is an index. -/
abbrev ArrayHeap (α : Type) : Type := List (List α)

/-- The loop of `shuffleArray` acting on the array object `shuffled` of the heap. -/
def shuffleLoopRef {α : Type} (rnd : Nat → Nat) (shuffled : Nat) :
    Nat → ArrayHeap α → ArrayHeap α
  | 0, heap => heap
  | i + 1, heap =>
    match heap[shuffled]? with
    | some contents =>
      shuffleLoopRef rnd shuffled i (heap.set shuffled (swap contents (i + 1) (rnd (i + 1))))
    | none => shuffleLoopRef rnd shuffled i heap

/-- The function `shuffleArray` on array objects: `[...array]` allocates a new array, the loop
swaps inside the new array, and the reference to it is returned with the heap. -/
def shuffleArrayRef {α : Type} (rnd : Nat → Nat) (heap : ArrayHeap α) (array : Nat) :
    Option (ArrayHeap α × Nat) :=
  match heap[array]? with
  | none => none
  | some contents =>
    let shuffled := heap.length
    some (shuffleLoopRef rnd shuffled (contents.length - 1) (heap ++ [contents]), shuffled)

/-- A sequence of random choices for an array of length `n`: for each loop index
`i = n - 1, ..., 1` (stored at position `i - 1`) an index in `[0, i]`. -/
abbrev Choices (n : Nat) : Type := (i : Fin (n - 1)) → Fin (i.val + 2)

/-- The choice sequence as the random input of `shuffleArray`. -/
def Choices.toRnd {n : Nat} (c : Choices n) : Nat → Nat :=
  fun k => if h : 1 ≤ k ∧ k < n then (c ⟨k - 1, by omega⟩).val else 0

/-! ## Board creation -/

/-- The function `createBoard`. The symbols are the first `pairs` entries of the catalog in
every game (the comment in the source calls them random); only their order is shuffled. -/
def createBoard (rnd : Nat → Nat) (level : Level) (gameState : GameState) : GameState :=
  let config := GAME_CONFIG level
  let selectedEmojis := CARD_EMOJIS.take config.pairs
  let cardValues := selectedEmojis ++ selectedEmojis
  let shuffledCards := shuffleArray rnd cardValues
  { gameState with
    cards := gameState.cards ++ shuffledCards.enum.map fun (index, emoji) =>
      { id := index, value := emoji, isFlipped := false, isMatched := false } }

/-- The function `updateStars`. The test `moves > maxMoves * 1.5` is made on the doubled
values, which keeps it in the integers. -/
def updateStars (gameState : GameState) : Option GameState :=
  match configOf gameState.currentLevel with
  | none => none
  | some config =>
    let maxMoves := config.pairs
    let stars :=
      if gameState.moves > maxMoves * 2 then 1
      else if gameState.moves * 2 > maxMoves * 3 then 2
      else 3
    some { gameState with stars := stars }

/-- The object that `startGame` assigns to `gameState` before it builds the board. -/
def resetGameState (level : Level) : GameState :=
  { currentLevel := some level, cards := [], flippedCards := [], matchedPairs := 0,
    moves := 0, score := 0, isChecking := false, stars := 3 }

/-- The function `startGame`. Pending timers are not cancelled. -/
def startGame (rnd : Nat → Nat) (level : Level) (w : World) : Option World :=
  let log := w.log ++ [Effect.saveLastLevel level, Effect.incrementGamesPlayed]
  match updateStars (createBoard rnd level (resetGameState level)) with
  | none => none
  | some gameState => some { w with gameState := gameState, log := log }

/-- The function `restartGame`. -/
def restartGame (rnd : Nat → Nat) (w : World) : Option World :=
  match w.gameState.currentLevel with
  | some level => startGame rnd level w
  | none => some w

/-! ## Turn state machine -/

/-- The function `flipCard`. -/
def flipCard (gameState : GameState) (cardId : Nat) : Option GameState :=
  match gameState.cards[cardId]? with
  | none => none
  | some card =>
    some { gameState with cards := gameState.cards.set cardId { card with isFlipped := true } }

/-- The function `unflipCard`. -/
def unflipCard (gameState : GameState) (cardId : Nat) : Option GameState :=
  match gameState.cards[cardId]? with
  | none => none
  | some card =>
    some { gameState with cards := gameState.cards.set cardId { card with isFlipped := false } }

/-- The assignment `gameState.cards[cardId].isMatched = true`. -/
def markMatched (gameState : GameState) (cardId : Nat) : Option GameState :=
  match gameState.cards[cardId]? with
  | none => none
  | some card =>
    some { gameState with cards := gameState.cards.set cardId { card with isMatched := true } }

/-- The function `resetTurn`. -/
def resetTurn (gameState : GameState) : GameState :=
  { gameState with flippedCards := [], isChecking := false }

/-- The function `handleMatch`. -/
def handleMatch (w : World) (cardId1 cardId2 : Nat) : Option World :=
  match markMatched w.gameState cardId1 with
  | none => none
  | some g1 =>
    match markMatched g1 cardId2 with
    | none => none
    | some g2 =>
      let g3 := resetTurn { g2 with matchedPairs := g2.matchedPairs + 1, score := g2.score + 10 }
      match configOf g3.currentLevel with
      | none => none
      | some config =>
        let w3 := { w with gameState := g3 }
        if g3.matchedPairs = config.pairs then
          some (w3.setTimeout Callback.completeGame 500)
        else
          some w3

/-- The function `handleNoMatch`. -/
def handleNoMatch (w : World) (cardId1 cardId2 : Nat) : Option World :=
  match unflipCard w.gameState cardId1 with
  | none => none
  | some g1 =>
    match unflipCard g1 cardId2 with
    | none => none
    | some g2 =>
      match updateStars g2 with
      | none => none
      | some g3 => some { w with gameState := resetTurn g3 }

/-- The function `checkMatch`. -/
def checkMatch (w : World) : Option World :=
  let w1 := { w with gameState := { w.gameState with isChecking := true } }
  match w1.gameState.flippedCards with
  | cardId1 :: cardId2 :: _ =>
    match w1.gameState.cards[cardId1]?, w1.gameState.cards[cardId2]? with
    | some card1, some card2 =>
      match configOf w1.gameState.currentLevel with
      | none => none
      | some config =>
        if card1.value = card2.value then
          some (w1.setTimeout (Callback.handleMatch cardId1 cardId2) config.matchDelay)
        else
          some (w1.setTimeout (Callback.handleNoMatch cardId1 cardId2) config.matchDelay)
    | _, _ => none
  | _ => none

/-- The function `handleCardClick`. -/
def handleCardClick (w : World) (cardId : Nat) : Option World :=
  if w.gameState.isChecking then some w
  else
    match w.gameState.cards[cardId]? with
    | none => none
    | some card =>
      if card.isFlipped || card.isMatched then some w
      else if w.gameState.flippedCards.length ≥ 2 then some w
      else
        match flipCard w.gameState cardId with
        | none => none
        | some g1 =>
          let g2 := { g1 with flippedCards := g1.flippedCards ++ [cardId] }
          if g2.flippedCards.length = 2 then
            checkMatch { w with gameState := { g2 with moves := g2.moves + 1 } }
          else
            some { w with gameState := g2 }

/-- The function `completeGame`. -/
def completeGame (w : World) : World :=
  { w with log := w.log ++ [Effect.saveBestScore w.gameState.score] }

/-- The body of a timer callback. -/
def runCallback (w : World) : Callback → Option World
  | .handleMatch cardId1 cardId2 => handleMatch w cardId1 cardId2
  | .handleNoMatch cardId1 cardId2 => handleNoMatch w cardId1 cardId2
  | .completeGame => some (completeGame w)

/-- What can happen to a running game: the player clicks a card, or a pending timer fires. -/
inductive Input where
  | click (cardId : Nat)
  | fire (callback : Callback)
  deriving DecidableEq

/-- One event. The result is `none` when the event cannot happen (the timer is not pending)
or when its handler raises. -/
def step (w : World) : Input → Option World
  | .click cardId => handleCardClick w cardId
  | .fire callback =>
    if callback ∈ w.timers then
      runCallback { w with timers := w.timers.erase callback } callback
    else none

/-- A sequence of events, from left to right. -/
def run (w : World) : List Input → Option World
  | [] => some w
  | input :: inputs =>
    match step w input with
    | none => none
    | some w1 => run w1 inputs

/-! ## Storage adapter -/

/-- A JavaScript number as the storage adapter sees it: an integer-valued number, `NaN`,
`Infinity` or `-Infinity`. An integer `n` stands for the number only when it is one
(`isNumber`); the zero stands for both `+0` and `-0`, which the adapter cannot tell apart. -/
inductive Num where
  | nan
  | ofInt (n : Int)
  | infinity (negative : Bool)
  deriving DecidableEq

/-- The number of low bits of `x` that do not fit in a significand of 53 bits; the fuel
bounds the answer. -/
def excessBits : Nat → Nat → Nat
  | 0, _ => 0
  | fuel + 1, x => if x < 2 ^ 53 then 0 else excessBits fuel (x / 2) + 1

/-- The natural number with at most 53 significant bits nearest to `x`, a tie going to the
even significand: the value of `x` as a number, when it is below `2^1024`. -/
def roundToEven (x : Nat) : Nat :=
  let e := excessBits 1024 x
  let q := x / 2 ^ e
  let r := x % 2 ^ e
  if 2 * r > 2 ^ e ∨ (2 * r = 2 ^ e ∧ q % 2 = 1) then (q + 1) * 2 ^ e else q * 2 ^ e

/-- The power `2^1024`, from which on a rounded value is `Infinity`. -/
def overflowBound : Nat := 2 ^ 256 * 2 ^ 256 * 2 ^ 256 * 2 ^ 256

/-- The number value of the integer `x` with the given sign. -/
def Num.ofRounded (negative : Bool) (x : Nat) : Num :=
  if roundToEven x ≥ overflowBound then Num.infinity negative
  else if negative then Num.ofInt (-(roundToEven x : Int))
  else Num.ofInt (roundToEven x)

/-- Whether the integer `n` is a number: rounding leaves it as it is and it is finite. -/
def isNumber (n : Int) : Bool :=
  roundToEven n.natAbs == n.natAbs && decide (n.natAbs < overflowBound)

/-- The character of the decimal digit `d`. -/
def digitChar (d : Nat) : Char := Char.ofNat (48 + d)

/-- The decimal digits of `n`, most significant first; the fuel bounds their number. -/
def decimalDigitsAux : Nat → Nat → List Char
  | 0, n => [digitChar (n % 10)]
  | fuel + 1, n =>
    if n < 10 then [digitChar n] else decimalDigitsAux fuel (n / 10) ++ [digitChar (n % 10)]

/-- The decimal digits of a natural number, most significant first. -/
def decimalDigits (n : Nat) : List Char :=
  decimalDigitsAux n n

/-- The least power of ten above `x` among `p`, `10 p`, `100 p`, ... -/
def tenPowerAbove : Nat → Nat → Nat → Nat
  | 0, p, _ => p
  | fuel + 1, p, x => if x < p then p else tenPowerAbove fuel (p * 10) x

/-- The decimal with the fewest significant digits whose number value is `x`, nearest to `x`
when several have that many digits: it is looked for among the multiples of `d`, then of
`d / 10`, and so on. -/
def shortestDecimal : Nat → Nat → Nat → Nat
  | 0, _, x => x
  | fuel + 1, d, x =>
    if d = 0 then x
    else
      let low := x / d * d
      let high := (x / d + 1) * d
      if roundToEven low = x ∧ roundToEven high = x then
        if x - low < high - x then low
        else if high - x < x - low then high
        else if x / d % 2 = 0 then low else high
      else if roundToEven low = x then low
      else if roundToEven high = x then high
      else shortestDecimal fuel (d / 10) x

/-- The digits of `v` in exponent notation: one digit, the further significant digits after
a point, and the exponent. -/
def exponentForm (v : Nat) : List Char :=
  let digits := decimalDigits v
  let significant := (digits.reverse.dropWhile (fun c => c == '0')).reverse
  let exponent := 'e' :: '+' :: decimalDigits (digits.length - 1)
  match significant with
  | [] => digits
  | [digit] => digit :: exponent
  | digit :: more => digit :: '.' :: (more ++ exponent)

/-- The text of the non-negative integer-valued number `x`: the shortest decimal that reads
back as `x`, written out in full below `10^21` and in exponent notation from there on. -/
def natToString (x : Nat) : List Char :=
  let v := shortestDecimal 400 (tenPowerAbove 400 1 x / 10) x
  if v < 10 ^ 21 then decimalDigits v else exponentForm v

/-- The method `toString` of a number. -/
def Num.toString : Num → String
  | .nan => "NaN"
  | .infinity false => "Infinity"
  | .infinity true => "-Infinity"
  | .ofInt n =>
    if n < 0 then String.mk ('-' :: natToString n.natAbs) else String.mk (natToString n.natAbs)

/-- The white space that `parseInt` skips at the start of its argument. -/
def isStrWhiteSpaceChar (c : Char) : Bool :=
  c.toNat ∈ [0x09, 0x0A, 0x0B, 0x0C, 0x0D, 0x20, 0xA0, 0x1680, 0x2028, 0x2029, 0x202F, 0x205F,
    0x3000, 0xFEFF] || (0x2000 ≤ c.toNat && c.toNat ≤ 0x200A)

/-- The value of a run of decimal digits. -/
def digitsValue (digits : List Char) : Nat :=
  digits.foldl (fun acc c => acc * 10 + (c.toNat - 48)) 0

/-- The optional sign that `parseInt` reads after the white space: whether it is a minus
sign, and the text after it. -/
def readSign (chars : List Char) : Bool × List Char :=
  match chars with
  | '-' :: rest => (true, rest)
  | '+' :: rest => (false, rest)
  | _ => (false, chars)

/-- The call `parseInt(text, 10)`: skip white space, read a sign, read the longest run of
decimal digits; the result is `NaN` when there is no digit and the number value of the
digits otherwise. -/
def parseInt (text : String) : Num :=
  let trimmed := text.toList.dropWhile isStrWhiteSpaceChar
  let (negative, rest) := readSign trimmed
  let digits := rest.takeWhile Char.isDigit
  if digits.isEmpty then Num.nan
  else Num.ofRounded negative (digitsValue digits)

/-- The comparison `a > b` of two numbers: false when one of them is `NaN`. -/
def Num.gt : Num → Num → Bool
  | .ofInt a, .ofInt b => decide (a > b)
  | .infinity false, .ofInt _ => true
  | .infinity false, .infinity true => true
  | .ofInt _, .infinity true => true
  | _, _ => false

/-- The sum `a + 1`. -/
def Num.succ : Num → Num
  | .ofInt a => Num.ofRounded (decide (a + 1 < 0)) (a + 1).natAbs
  | .nan => .nan
  | .infinity negative => .infinity negative

/-- The exception that an operation of the store raises. -/
inductive StoreError where
  | securityError
  | quotaExceededError
  deriving DecidableEq

/-- The object `localStorage` as the adapter uses it, over a store state `σ`: each operation
returns or raises. -/
structure LocalStorage (σ : Type) where
  getItem : σ → String → Except StoreError (Option String)
  setItem : σ → String → String → Except StoreError σ

/-- The contents of an available store. -/
abbrev Store : Type := String → Option String

/-- An available store: reads and writes succeed. -/
def availableStorage : LocalStorage Store where
  getItem := fun store key => .ok (store key)
  setItem := fun store key value => .ok (fun k => if k = key then some value else store k)

/-- A store disabled by the host: every read and every write raises. -/
def unavailableStorage : LocalStorage Unit where
  getItem := fun _ _ => .error StoreError.securityError
  setItem := fun _ _ _ => .error StoreError.securityError

namespace GameStorage

/-- The key `KEYS.BEST_SCORE`. -/
def BEST_SCORE : String := "memoryGame_bestScore"

/-- The key `KEYS.LAST_LEVEL`. -/
def LAST_LEVEL : String := "memoryGame_lastLevel"

/-- The key `KEYS.TOTAL_GAMES`. -/
def TOTAL_GAMES : String := "memoryGame_totalGames"

/-- The expression `text ? parseInt(text, 10) : 0`: `null` and the empty string are falsy. -/
def parseOrZero : Option String → Num
  | none => Num.ofInt 0
  | some text => if text = "" then Num.ofInt 0 else parseInt text

/-- The method `getBestScore`. -/
def getBestScore {σ : Type} (localStorage : LocalStorage σ) (store : σ) :
    Except StoreError Num :=
  try
    let score ← localStorage.getItem store BEST_SCORE
    pure (parseOrZero score)
  catch _ =>
    pure (Num.ofInt 0)

/-- The method `saveBestScore`; the result carries the store after the call. -/
def saveBestScore {σ : Type} (localStorage : LocalStorage σ) (store : σ) (score : Int) :
    Except StoreError (Bool × σ) :=
  try
    let currentBest ← getBestScore localStorage store
    if (Num.ofInt score).gt currentBest then
      let store1 ← localStorage.setItem store BEST_SCORE (Num.ofInt score).toString
      pure (true, store1)
    else
      pure (false, store)
  catch _ =>
    pure (false, store)

/-- The method `saveLastLevel`. -/
def saveLastLevel {σ : Type} (localStorage : LocalStorage σ) (store : σ) (level : String) :
    Except StoreError σ :=
  try
    localStorage.setItem store LAST_LEVEL level
  catch _ =>
    pure store

/-- The method `getLastLevel`. -/
def getLastLevel {σ : Type} (localStorage : LocalStorage σ) (store : σ) :
    Except StoreError (Option String) :=
  try
    localStorage.getItem store LAST_LEVEL
  catch _ =>
    pure none

/-- The method `getTotalGames`. -/
def getTotalGames {σ : Type} (localStorage : LocalStorage σ) (store : σ) :
    Except StoreError Num :=
  try
    let total ← localStorage.getItem store TOTAL_GAMES
    pure (parseOrZero total)
  catch _ =>
    pure (Num.ofInt 0)

/-- The method `incrementGamesPlayed`. -/
def incrementGamesPlayed {σ : Type} (localStorage : LocalStorage σ) (store : σ) :
    Except StoreError σ :=
  try
    let current ← getTotalGames localStorage store
    localStorage.setItem store TOTAL_GAMES current.succ.toString
  catch _ =>
    pure store

end GameStorage


/-! ## Runs with restarts -/

/-- Everything that can happen on the page: an input of the running game, a level button
(`startGame`) or the restart button (`restartGame`), each with the random choices of its
shuffle. -/
inductive Event where
  | input (input : Input)
  | startGame (rnd : Nat → Nat) (level : Level)
  | restartGame (rnd : Nat → Nat)

/-- One event of the page. -/
def stepEvent (w : World) : Event → Option World
  | .input input => step w input
  | .startGame rnd level => startGame rnd level w
  | .restartGame rnd => restartGame rnd w

/-- A sequence of events of the page, from left to right. -/
def runEvents (w : World) : List Event → Option World
  | [] => some w
  | event :: events =>
    match stepEvent w event with
    | none => none
    | some w1 => runEvents w1 events

/-! ## Observations used in the statements -/

/-- Whether a callback is a resolution scheduled by `checkMatch`. -/
def Callback.isResolution : Callback → Bool
  | .handleMatch _ _ => true
  | .handleNoMatch _ _ => true
  | .completeGame => false

/-- The number of resolution timers that are outstanding. -/
def resolutionsOutstanding (w : World) : Nat :=
  w.timers.countP Callback.isResolution

/-- Whether every `startGame` and `restartGame` of the sequence happens at a moment when no
resolution timer is outstanding. -/
def restartsWhenIdle (w : World) : List Event → Bool
  | [] => true
  | event :: events =>
    (match event with
      | .input _ => true
      | _ => resolutionsOutstanding w == 0) &&
    (match stepEvent w event with
      | none => true
      | some w1 => restartsWhenIdle w1 events)

/-- The number of calls `setTimeout(completeGame, 500)` in a log. -/
def completionsScheduled (log : List Effect) : Nat :=
  log.count (Effect.setTimeout Callback.completeGame 500)

/-- The scores passed to `GameStorage.saveBestScore` in a log. -/
def savedScores (log : List Effect) : List Nat :=
  log.filterMap fun effect =>
    match effect with
    | .saveBestScore score => some score
    | _ => none

/-- Whether an input is the firing of a match resolution. -/
def Input.isMatchResolution : Input → Bool
  | .fire (.handleMatch _ _) => true
  | _ => false

/-- The number of match resolutions in a sequence of inputs. -/
def matchResolutions (inputs : List Input) : Nat :=
  inputs.countP Input.isMatchResolution

/-- The star rating that `updateStars` computes for a pair count and a move count. -/
def starsFor (pairs moves : Nat) : Nat :=
  if moves > pairs * 2 then 1 else if moves * 2 > pairs * 3 then 2 else 3

/-- The invariant of a game at `level` whose `startGame` left the log `log0`. -/
structure GameInv (level : Level) (log0 : List Effect) (w : World) : Prop where
  level_eq : w.gameState.currentLevel = some level
  cards_length : w.gameState.cards.length = 2 * (GAME_CONFIG level).pairs
  flipped_valid : ∀ id ∈ w.gameState.flippedCards, ∃ card,
    w.gameState.cards[id]? = some card ∧ card.isFlipped = true ∧ card.isMatched = false
  flipped_nodup : w.gameState.flippedCards.Nodup
  matched_flipped : ∀ (i : Nat) (card : Card), w.gameState.cards[i]? = some card →
    card.isMatched = true → card.isFlipped = true
  outstanding : resolutionsOutstanding w = if w.gameState.isChecking then 1 else 0
  checking : w.gameState.isChecking = true → ∃ a b, w.gameState.flippedCards = [a, b] ∧
    ∀ cb ∈ w.timers, cb.isResolution = true →
      cb = Callback.handleMatch a b ∨ cb = Callback.handleNoMatch a b
  idle : w.gameState.isChecking = false → w.gameState.flippedCards.length ≤ 1
  matched_count :
    w.gameState.cards.countP (fun card => card.isMatched) = 2 * w.gameState.matchedPairs
  score_eq : w.gameState.score = 10 * w.gameState.matchedPairs
  complete_pending : Callback.completeGame ∈ w.timers →
    w.gameState.matchedPairs = (GAME_CONFIG level).pairs
  log_eq : ∃ rest, w.log = log0 ++ rest ∧
    completionsScheduled rest =
      (if w.gameState.matchedPairs = (GAME_CONFIG level).pairs then 1 else 0) ∧
    ∀ score ∈ savedScores rest, score = 10 * (GAME_CONFIG level).pairs

/-- The invariant behind the star rating of a game at `level`. -/
structure StarsInv (level : Level) (w : World) : Prop where
  level_eq : w.gameState.currentLevel = some level
  stars_ge : starsFor (GAME_CONFIG level).pairs w.gameState.moves ≤ w.gameState.stars
  stars_le : w.gameState.stars ≤ 3

/-- Every card that is matched in `cards` is still there and matched in `cards1`. -/
def MatchedPreserved (cards cards1 : List Card) : Prop :=
  ∀ (i : Nat) (card : Card), cards[i]? = some card → card.isMatched = true →
    ∃ card1, cards1[i]? = some card1 ∧ card1.isMatched = true

/-- The part of the game state that a click or a timer can change, and how. -/
structure StepFrame (w w1 : World) (input : Input) : Prop where
  level_eq : w1.gameState.currentLevel = w.gameState.currentLevel
  moves_le : w.gameState.moves ≤ w1.gameState.moves
  matchedPairs_eq : w1.gameState.matchedPairs =
    w.gameState.matchedPairs + (if input.isMatchResolution then 1 else 0)
  score_eq : w1.gameState.score = w.gameState.score + (if input.isMatchResolution then 10 else 0)
  matched : MatchedPreserved w.gameState.cards w1.gameState.cards
  stars : w1.gameState.stars = w.gameState.stars ∨
    ∃ level, w.gameState.currentLevel = some level ∧
      w1.gameState.moves = w.gameState.moves ∧
      w1.gameState.stars = starsFor (GAME_CONFIG level).pairs w.gameState.moves

/-! ## A sample game -/

/-- The random choices `j = i` in every iteration: the shuffle leaves the deck in order, so on
the easy board the cards `k` and `k + 6` carry the same symbol. -/
def sampleRnd : Nat → Nat := fun i => i

/-- The easy game right after `startGame` on the freshly loaded page. -/
def sampleStart : World :=
  (startGame sampleRnd Level.easy initialWorld).getD initialWorld

/-- One failed turn followed by the six successful turns of the easy board. -/
def sampleTurns : List Input :=
  [Input.click 0, Input.click 1, Input.fire (Callback.handleNoMatch 0 1),
   Input.click 0, Input.click 6, Input.fire (Callback.handleMatch 0 6),
   Input.click 1, Input.click 7, Input.fire (Callback.handleMatch 1 7),
   Input.click 2, Input.click 8, Input.fire (Callback.handleMatch 2 8),
   Input.click 3, Input.click 9, Input.fire (Callback.handleMatch 3 9),
   Input.click 4, Input.click 10, Input.fire (Callback.handleMatch 4 10),
   Input.click 5, Input.click 11, Input.fire (Callback.handleMatch 5 11)]

/-- The easy game after all pairs are matched, with the completion timer pending. -/
def sampleMatched : World :=
  (run sampleStart sampleTurns).getD initialWorld

/-- The easy game with its first card face up. -/
def sampleOneUp : World :=
  (run sampleStart [Input.click 0]).getD initialWorld

/-- The easy game with the cards 0 and 6, a pair, face up and their resolution pending. -/
def sampleResolving : World :=
  (run sampleStart [Input.click 0, Input.click 6]).getD initialWorld

/-- The easy game is started, the cards 0 and 1 are turned up, and the game is restarted
while their resolution is pending; then the cards 2 and 3 of the new game are turned up. -/
def restartWhileResolving : List Event :=
  [Event.startGame sampleRnd Level.easy,
   Event.input (Input.click 0), Event.input (Input.click 1),
   Event.restartGame sampleRnd,
   Event.input (Input.click 2), Event.input (Input.click 3)]

/-- The easy game is started, one turn is played to its resolution, the game is restarted,
and two cards of the new game are turned up. -/
def restartAfterResolution : List Event :=
  [Event.startGame sampleRnd Level.easy,
   Event.input (Input.click 0), Event.input (Input.click 1),
   Event.input (Input.fire (Callback.handleNoMatch 0 1)),
   Event.restartGame sampleRnd,
   Event.input (Input.click 2), Event.input (Input.click 3)]

/-- The world after `restartAfterResolution`. -/
def sampleRestarted : World :=
  (runEvents initialWorld restartAfterResolution).getD initialWorld

/-! ## The shuffle -/

theorem swap_length {α : Type} (a : List α) (i j : Nat) : (swap a i j).length = a.length := by
  unfold swap; split <;> simp

theorem swap_perm {α : Type} (a : List α) (i j : Nat) : (swap a i j).Perm a := by
  classical
  unfold swap
  split
  · rename_i x y hx hy
    obtain ⟨hi, hxi⟩ := List.getElem?_eq_some_iff.mp hx
    obtain ⟨hj, hyj⟩ := List.getElem?_eq_some_iff.mp hy
    rw [List.perm_iff_count]
    intro c
    rw [List.count_set _ _ _ _ (by simpa using hj), List.count_set _ _ _ _ hi]
    have h1 := List.boole_getElem_le_countP (fun z => z == c) a i hi
    have h2 := List.boole_getElem_le_countP (fun z => z == c) a j hj
    rw [← List.count_eq_countP] at h1 h2
    simp only [List.getElem_set, hxi, hyj] at h1 h2 ⊢
    by_cases hij : i = j
    · subst hij
      have : x = y := by rw [← hxi, ← hyj]
      subst this
      simp only [if_true]
      split_ifs at h1 ⊢ <;> omega
    · simp only [hij, if_false]
      split_ifs at h1 h2 ⊢ <;> omega
  · exact List.Perm.refl _

theorem swap_getElem?_left {α : Type} (a : List α) (i j : Nat) (hi : i < a.length)
    (hj : j < a.length) : (swap a i j)[i]? = a[j]? := by
  unfold swap
  rw [List.getElem?_eq_getElem hi, List.getElem?_eq_getElem hj]
  simp only
  by_cases hij : j = i
  · subst hij; simp [hj]
  · rw [List.getElem?_set_ne hij, List.getElem?_set_self hi]

theorem swap_getElem?_other {α : Type} (a : List α) (i j k : Nat) (hi : k ≠ i) (hj : k ≠ j) :
    (swap a i j)[k]? = a[k]? := by
  unfold swap
  split
  · rw [List.getElem?_set_ne (Ne.symm hj), List.getElem?_set_ne (Ne.symm hi)]
  · rfl

theorem shuffleLoop_length {α : Type} (rnd : Nat → Nat) (i : Nat) (a : List α) :
    (shuffleLoop rnd i a).length = a.length := by
  induction i generalizing a with
  | zero => rfl
  | succ i ih => simp [shuffleLoop, ih, swap_length]

theorem shuffleLoop_perm {α : Type} (rnd : Nat → Nat) (i : Nat) (a : List α) :
    (shuffleLoop rnd i a).Perm a := by
  induction i generalizing a with
  | zero => exact List.Perm.refl _
  | succ i ih => exact (ih _).trans (swap_perm _ _ _)

theorem shuffleLoop_getElem?_above {α : Type} (rnd : Nat → Nat) (hr : ∀ i, rnd i ≤ i)
    (i : Nat) (a : List α) (k : Nat) (hk : i < k) : (shuffleLoop rnd i a)[k]? = a[k]? := by
  induction i generalizing a with
  | zero => rfl
  | succ i ih =>
    simp only [shuffleLoop]
    rw [ih _ (by omega)]
    have := hr (i + 1)
    exact swap_getElem?_other _ _ _ _ (by omega) (by omega)

theorem shuffleLoop_congr {α : Type} (rnd rnd' : Nat → Nat) (i : Nat) (a : List α)
    (h : ∀ k, 1 ≤ k → k ≤ i → rnd k = rnd' k) : shuffleLoop rnd i a = shuffleLoop rnd' i a := by
  induction i generalizing a with
  | zero => rfl
  | succ i ih =>
    simp only [shuffleLoop]
    rw [h (i + 1) (by omega) (by omega)]
    exact ih _ (fun k h1 h2 => h k h1 (by omega))

theorem shuffleLoop_injective {α : Type} (rnd rnd' : Nat → Nat) (hr : ∀ i, rnd i ≤ i)
    (hr' : ∀ i, rnd' i ≤ i) (i : Nat) (a : List α) (ha : a.Nodup) (hi : i < a.length)
    (h : shuffleLoop rnd i a = shuffleLoop rnd' i a) :
    ∀ k, 1 ≤ k → k ≤ i → rnd k = rnd' k := by
  induction i generalizing a with
  | zero => intro k h1 h2; omega
  | succ i ih =>
    simp only [shuffleLoop] at h
    have hj := hr (i + 1)
    have hj' := hr' (i + 1)
    have e1 := shuffleLoop_getElem?_above rnd hr i (swap a (i + 1) (rnd (i + 1))) (i + 1) (by omega)
    have e2 := shuffleLoop_getElem?_above rnd' hr' i (swap a (i + 1) (rnd' (i + 1))) (i + 1) (by omega)
    rw [h, e2, swap_getElem?_left _ _ _ hi (by omega)] at e1
    rw [swap_getElem?_left _ _ _ hi (by omega)] at e1
    rw [List.getElem?_eq_getElem (by omega : rnd (i + 1) < a.length),
      List.getElem?_eq_getElem (by omega : rnd' (i + 1) < a.length)] at e1
    have hjj : rnd (i + 1) = rnd' (i + 1) := by
      have := (ha.getElem_inj_iff).mp (Option.some.inj e1)
      exact this.symm
    rw [hjj] at h
    have hn : (swap a (i + 1) (rnd' (i + 1))).Nodup := (swap_perm _ _ _).nodup_iff.mpr ha
    have := ih _ hn (by rw [swap_length]; omega) h
    intro k h1 h2
    by_cases hk : k = i + 1
    · subst hk; exact hjj
    · exact this k h1 (by omega)


theorem Choices.toRnd_le {n : Nat} (c : Choices n) (k : Nat) : c.toRnd k ≤ k := by
  unfold Choices.toRnd
  split
  · have := (c ⟨k - 1, by omega⟩).isLt
    simp only at this
    omega
  · omega

theorem prod_fin_add_two (m : Nat) : (∏ i : Fin m, (i.val + 2)) = (m + 1).factorial := by
  induction m with
  | zero => simp
  | succ m ih =>
    rw [Fin.prod_univ_castSucc]
    simp only [Fin.coe_castSucc, Fin.val_last]
    rw [ih, Nat.factorial_succ (m + 1)]
    ring

theorem Choices.card (n : Nat) : Fintype.card (Choices n) = n.factorial := by
  rw [Fintype.card_pi]
  simp only [Fintype.card_fin]
  rw [prod_fin_add_two]
  cases n with
  | zero => rfl
  | succ n => simp

theorem Choices.toRnd_injective {n : Nat} (c c' : Choices n)
    (h : ∀ k, 1 ≤ k → k ≤ n - 1 → c.toRnd k = c'.toRnd k) : c = c' := by
  funext i
  have hi := i.isLt
  have key : ∀ d : Choices n, d.toRnd (i.val + 1) = (d i).val := by
    intro d
    have hk : 1 ≤ i.val + 1 ∧ i.val + 1 < n := by omega
    simp [Choices.toRnd, hk]
  have := h (i.val + 1) (by omega) (by omega)
  rw [key, key] at this
  exact Fin.ext this

theorem shuffleArray_choices_injective {α : Type} (a : List α) (ha : a.Nodup)
    (c c' : Choices a.length)
    (h : shuffleArray c.toRnd a = shuffleArray c'.toRnd a) : c = c' := by
  apply Choices.toRnd_injective
  by_cases hl : a.length = 0
  · intro k h1 h2; omega
  · exact shuffleLoop_injective _ _ (Choices.toRnd_le c) (Choices.toRnd_le c') _ a ha
      (by omega) h

theorem shuffleArray_choices_surjective {α : Type} (a : List α) (ha : a.Nodup)
    (l : List α) (hl : l.Perm a) : ∃ c : Choices a.length, shuffleArray c.toRnd a = l := by
  classical
  let f : Choices a.length → List α := fun c => shuffleArray c.toRnd a
  have hinj : Function.Injective f := fun c c' h => shuffleArray_choices_injective a ha c c' h
  have hsub : Finset.univ.image f ⊆ a.permutations.toFinset := by
    intro x hx
    obtain ⟨c, -, rfl⟩ := Finset.mem_image.mp hx
    rw [List.mem_toFinset, List.mem_permutations]
    exact shuffleLoop_perm _ _ _
  have hcard : a.permutations.toFinset.card ≤ (Finset.univ.image f).card := by
    rw [Finset.card_image_of_injective _ hinj, Finset.card_univ, Choices.card,
      List.toFinset_card_of_nodup (List.nodup_permutations a ha), List.length_permutations]
  have heq := Finset.eq_of_subset_of_card_le hsub hcard
  have hmem : l ∈ Finset.univ.image f := by
    rw [heq, List.mem_toFinset, List.mem_permutations]; exact hl
  obtain ⟨c, -, hc⟩ := Finset.mem_image.mp hmem
  exact ⟨c, hc⟩


theorem set_getElem?_same {α : Type} (l : List α) (i : Nat) (a : α) (h : l[i]? = some a) :
    l.set i a = l := by
  apply List.ext_getElem?
  intro n
  by_cases hn : i = n
  · subst hn
    rw [List.getElem?_set_self (List.getElem?_eq_some_iff.mp h).1, h]
  · rw [List.getElem?_set_ne hn]

theorem shuffleLoopRef_eq {α : Type} (rnd : Nat → Nat) (shuffled : Nat) (i : Nat)
    (heap : ArrayHeap α) (contents : List α) (h : heap[shuffled]? = some contents) :
    shuffleLoopRef rnd shuffled i heap = heap.set shuffled (shuffleLoop rnd i contents) := by
  induction i generalizing heap contents with
  | zero =>
    simp only [shuffleLoopRef, shuffleLoop]
    exact (set_getElem?_same _ _ _ h).symm
  | succ i ih =>
    have hlt : shuffled < heap.length := (List.getElem?_eq_some_iff.mp h).1
    simp only [shuffleLoopRef, shuffleLoop, h]
    rw [ih _ _ (List.getElem?_set_self hlt), List.set_set]

theorem shuffleArrayRef_eq {α : Type} (rnd : Nat → Nat) (heap : ArrayHeap α) (array : Nat)
    (contents : List α) (h : heap[array]? = some contents) :
    shuffleArrayRef rnd heap array =
      some (heap ++ [shuffleArray rnd contents], heap.length) := by
  have hnew : (heap ++ [contents])[heap.length]? = some contents := by simp
  simp only [shuffleArrayRef, h]
  rw [shuffleLoopRef_eq rnd heap.length _ _ contents hnew]
  simp [shuffleArray]

/-- C3. `shuffleArray` is a permutation that works on a copy: called on the array object
`array` with any random indices `rnd i ≤ i`, it returns a new array object (the heap grows by
one array and every earlier array, the input among them, keeps its contents) whose contents
have the length of the input and are a permutation of it. -/
theorem shuffleArray_permutation {α : Type} (rnd : Nat → Nat) (hrnd : ∀ i, rnd i ≤ i)
    (heap : ArrayHeap α) (array : Nat) (contents : List α)
    (harray : heap[array]? = some contents) :
    shuffleArrayRef rnd heap array = some (heap ++ [shuffleArray rnd contents], heap.length) ∧
      (heap ++ [shuffleArray rnd contents])[array]? = some contents ∧
      (∀ r, r < heap.length → (heap ++ [shuffleArray rnd contents])[r]? = heap[r]?) ∧
      (shuffleArray rnd contents).length = contents.length ∧
      (shuffleArray rnd contents).Perm contents := by
  have _ := hrnd
  have hlt : array < heap.length := (List.getElem?_eq_some_iff.mp harray).1
  refine ⟨shuffleArrayRef_eq rnd heap array contents harray, ?_, ?_, ?_, ?_⟩
  · rw [List.getElem?_append_left hlt, harray]
  · intro r hr
    rw [List.getElem?_append_left hr]
  · exact shuffleLoop_length _ _ _
  · exact shuffleLoop_perm _ _ _

theorem shuffleArray_permutation_witness :
    (∀ i, (fun i => i / 2) i ≤ i) ∧ ([[1, 2, 3, 4]] : ArrayHeap Nat)[0]? = some [1, 2, 3, 4] ∧
      shuffleArrayRef (fun i => i / 2) [[1, 2, 3, 4]] 0 = some ([[1, 2, 3, 4], [3, 1, 4, 2]], 1) :=
  ⟨fun i => Nat.div_le_self i 2, rfl,
    (shuffleArray_permutation (fun i => i / 2) (fun i => Nat.div_le_self i 2)
      [[1, 2, 3, 4]] 0 [1, 2, 3, 4] rfl).1⟩

/-- C10. The shuffle is uniform: for an array of `n` pairwise distinct elements there are
`n!` choice sequences, every one of them yields an ordering of the array, and every ordering
of the array is the result of exactly one choice sequence. -/
theorem shuffleArray_uniform {α : Type} (array : List α) (hdistinct : array.Nodup) :
    Fintype.card (Choices array.length) = array.length.factorial ∧
      (∀ c : Choices array.length, (shuffleArray c.toRnd array).Perm array) ∧
      ∀ ordering : List α, ordering.Perm array →
        ∃! c : Choices array.length, shuffleArray c.toRnd array = ordering := by
  refine ⟨Choices.card _, fun c => shuffleLoop_perm _ _ _, ?_⟩
  intro ordering hperm
  obtain ⟨c, hc⟩ := shuffleArray_choices_surjective array hdistinct ordering hperm
  refine ⟨c, hc, ?_⟩
  intro c1 hc1
  exact shuffleArray_choices_injective array hdistinct c1 c (hc1.trans hc.symm)

theorem shuffleArray_uniform_witness :
    ([1, 2, 3] : List Nat).Nodup ∧ Fintype.card (Choices 3) = 6 ∧
      ∃! c : Choices 3, shuffleArray c.toRnd [1, 2, 3] = [3, 2, 1] :=
  ⟨by decide, (shuffleArray_uniform [1, 2, 3] (by decide)).1,
    (shuffleArray_uniform [1, 2, 3] (by decide)).2.2 [3, 2, 1] (by decide)⟩

/-! ## The board -/

theorem CARD_EMOJIS_nodup : CARD_EMOJIS.Nodup := by decide

theorem pairs_le_catalog (level : Level) : (GAME_CONFIG level).pairs ≤ CARD_EMOJIS.length := by
  cases level <;> decide

theorem createBoard_cards (rnd : Nat → Nat) (level : Level) :
    (createBoard rnd level (resetGameState level)).cards =
      (shuffleArray rnd (CARD_EMOJIS.take (GAME_CONFIG level).pairs ++
        CARD_EMOJIS.take (GAME_CONFIG level).pairs)).enum.map fun (index, emoji) =>
          { id := index, value := emoji, isFlipped := false, isMatched := false } := by
  simp [createBoard, resetGameState]

theorem createBoard_getElem? (rnd : Nat → Nat) (level : Level) (i : Nat) :
    (createBoard rnd level (resetGameState level)).cards[i]? =
      (shuffleArray rnd (CARD_EMOJIS.take (GAME_CONFIG level).pairs ++
        CARD_EMOJIS.take (GAME_CONFIG level).pairs))[i]?.map fun emoji =>
          { id := i, value := emoji, isFlipped := false, isMatched := false } := by
  rw [createBoard_cards, List.getElem?_map, List.getElem?_enum, Option.map_map]
  rfl

theorem createBoard_values (rnd : Nat → Nat) (level : Level) :
    (createBoard rnd level (resetGameState level)).cards.map Card.value =
      shuffleArray rnd (CARD_EMOJIS.take (GAME_CONFIG level).pairs ++
        CARD_EMOJIS.take (GAME_CONFIG level).pairs) := by
  rw [createBoard_cards, List.map_map]
  conv_rhs => rw [← List.enum_map_snd (shuffleArray rnd _)]
  rfl

theorem createBoard_length (rnd : Nat → Nat) (level : Level) :
    (createBoard rnd level (resetGameState level)).cards.length =
      2 * (GAME_CONFIG level).pairs := by
  have h := pairs_le_catalog level
  rw [createBoard_cards, List.length_map, List.enum_length]
  unfold shuffleArray
  rw [shuffleLoop_length, List.length_append, List.length_take]
  omega

/-- C2. For every difficulty preset and every sequence of random choices of the shuffle, the
board that `createBoard` builds on the freshly reset game state has `2 × pairs` cards (12, 24
and 40), card `i` has id `i` and is neither flipped nor matched, and every symbol value on the
board is the value of exactly two cards. -/
theorem createBoard_board (rnd : Nat → Nat) (hrnd : ∀ i, rnd i ≤ i) (level : Level) :
    (createBoard rnd level (resetGameState level)).cards.length = 2 * (GAME_CONFIG level).pairs ∧
      (createBoard rnd Level.easy (resetGameState Level.easy)).cards.length = 12 ∧
      (createBoard rnd Level.medium (resetGameState Level.medium)).cards.length = 24 ∧
      (createBoard rnd Level.hard (resetGameState Level.hard)).cards.length = 40 ∧
      (∀ (i : Nat) (card : Card),
        (createBoard rnd level (resetGameState level)).cards[i]? = some card →
          card.id = i ∧ card.isFlipped = false ∧ card.isMatched = false) ∧
      ∀ value ∈ (createBoard rnd level (resetGameState level)).cards.map Card.value,
        ((createBoard rnd level (resetGameState level)).cards.map Card.value).count value = 2 := by
  have _ := hrnd
  refine ⟨createBoard_length rnd level, createBoard_length rnd _, createBoard_length rnd _,
    createBoard_length rnd _, ?_, ?_⟩
  · intro i card hcard
    rw [createBoard_getElem?] at hcard
    obtain ⟨emoji, -, rfl⟩ := Option.map_eq_some'.mp hcard
    exact ⟨rfl, rfl, rfl⟩
  · intro value hvalue
    rw [createBoard_values] at hvalue ⊢
    have hperm := shuffleLoop_perm rnd
      ((CARD_EMOJIS.take (GAME_CONFIG level).pairs ++
        CARD_EMOJIS.take (GAME_CONFIG level).pairs).length - 1)
      (CARD_EMOJIS.take (GAME_CONFIG level).pairs ++ CARD_EMOJIS.take (GAME_CONFIG level).pairs)
    have hmem : value ∈ CARD_EMOJIS.take (GAME_CONFIG level).pairs := by
      have := hperm.mem_iff.mp hvalue
      simpa using this
    have hnodup : (CARD_EMOJIS.take (GAME_CONFIG level).pairs).Nodup :=
      CARD_EMOJIS_nodup.sublist (List.take_sublist _ _)
    unfold shuffleArray
    rw [hperm.count_eq, List.count_append, List.count_eq_one_of_mem hnodup hmem]

theorem createBoard_board_witness :
    (∀ i : Nat, (fun i : Nat => i) i ≤ i) ∧
      (createBoard (fun i => i) Level.easy (resetGameState Level.easy)).cards.length = 12 :=
  ⟨fun _ => Nat.le_refl _, (createBoard_board (fun i => i) (fun _ => Nat.le_refl _) Level.easy).2.1⟩

/-! ## The storage adapter -/

theorem digitChar_spec (d : Nat) (hd : d < 10) :
    (digitChar d).isDigit = true ∧ (digitChar d).toNat - 48 = d ∧
      isStrWhiteSpaceChar (digitChar d) = false ∧ digitChar d ≠ '-' ∧ digitChar d ≠ '+' := by
  interval_cases d <;> decide

theorem decimalDigitsAux_mem (fuel n : Nat) (c : Char) (hc : c ∈ decimalDigitsAux fuel n) :
    ∃ d, d < 10 ∧ c = digitChar d := by
  induction fuel generalizing n with
  | zero =>
    simp only [decimalDigitsAux, List.mem_singleton] at hc
    exact ⟨n % 10, Nat.mod_lt _ (by omega), hc⟩
  | succ fuel ih =>
    simp only [decimalDigitsAux] at hc
    split at hc
    · rename_i hlt
      exact ⟨n, hlt, by simpa using hc⟩
    · rw [List.mem_append, List.mem_singleton] at hc
      rcases hc with h | h
      · exact ih _ h
      · exact ⟨n % 10, Nat.mod_lt _ (by omega), h⟩

theorem decimalDigits_mem (n : Nat) (c : Char) (hc : c ∈ decimalDigits n) :
    ∃ d, d < 10 ∧ c = digitChar d :=
  decimalDigitsAux_mem n n c hc

theorem decimalDigitsAux_ne_nil (fuel n : Nat) : decimalDigitsAux fuel n ≠ [] := by
  cases fuel with
  | zero => simp [decimalDigitsAux]
  | succ fuel =>
    simp only [decimalDigitsAux]
    split <;> simp

theorem decimalDigits_ne_nil (n : Nat) : decimalDigits n ≠ [] :=
  decimalDigitsAux_ne_nil n n

theorem digitsValue_append_digit (l : List Char) (c : Char) :
    digitsValue (l ++ [c]) = digitsValue l * 10 + (c.toNat - 48) := by
  simp [digitsValue, List.foldl_append]

theorem digitsValue_singleton (d : Nat) (hd : d < 10) : digitsValue [digitChar d] = d := by
  have h := digitsValue_append_digit [] (digitChar d)
  rw [List.nil_append] at h
  rw [h, (digitChar_spec d hd).2.1]
  simp [digitsValue]

theorem digitsValue_decimalDigitsAux (fuel n : Nat) (h : n ≤ fuel) :
    digitsValue (decimalDigitsAux fuel n) = n := by
  induction fuel generalizing n with
  | zero =>
    have hn : n = 0 := by omega
    subst hn
    exact digitsValue_singleton 0 (by omega)
  | succ fuel ih =>
    simp only [decimalDigitsAux]
    split
    · rename_i hlt
      exact digitsValue_singleton n hlt
    · rw [digitsValue_append_digit, ih (n / 10) (by omega),
        (digitChar_spec (n % 10) (Nat.mod_lt _ (by omega))).2.1]
      omega

theorem digitsValue_decimalDigits (n : Nat) : digitsValue (decimalDigits n) = n :=
  digitsValue_decimalDigitsAux n n (Nat.le_refl n)

theorem takeWhile_decimalDigits (n : Nat) :
    (decimalDigits n).takeWhile Char.isDigit = decimalDigits n := by
  rw [List.takeWhile_eq_self_iff]
  intro c hc
  obtain ⟨d, hd, rfl⟩ := decimalDigits_mem n c hc
  exact (digitChar_spec d hd).1

theorem decimalDigits_head (n : Nat) :
    ∃ d rest, d < 10 ∧ decimalDigits n = digitChar d :: rest := by
  cases h : decimalDigits n with
  | nil => exact absurd h (decimalDigits_ne_nil n)
  | cons c rest =>
    obtain ⟨d, hd, rfl⟩ := decimalDigits_mem n c (by rw [h]; exact List.mem_cons_self _ _)
    exact ⟨d, rest, hd, rfl⟩

theorem readSign_digit (d : Nat) (hd : d < 10) (rest : List Char) :
    readSign (digitChar d :: rest) = (false, digitChar d :: rest) := by
  obtain ⟨-, -, -, h4, h5⟩ := digitChar_spec d hd
  unfold readSign
  split
  · rename_i heq
    simp at heq
    exact absurd heq.1 h4
  · rename_i heq
    simp at heq
    exact absurd heq.1 h5
  · rfl

theorem parseInt_mk_neg (m : Nat) :
    parseInt (String.mk ('-' :: decimalDigits m)) = Num.ofRounded true m := by
  have hws : isStrWhiteSpaceChar '-' = false := by decide
  have hsign : readSign ('-' :: decimalDigits m) = (true, decimalDigits m) := rfl
  unfold parseInt
  simp only [String.toList, List.dropWhile_cons, hws]
  simp only [Bool.false_eq_true, if_false, hsign, takeWhile_decimalDigits,
    digitsValue_decimalDigits]
  simp [decimalDigits_ne_nil]

theorem parseInt_mk_pos (m : Nat) :
    parseInt (String.mk (decimalDigits m)) = Num.ofRounded false m := by
  obtain ⟨d, rest, hd, hrest⟩ := decimalDigits_head m
  have h3 := (digitChar_spec d hd).2.2.1
  have htake := takeWhile_decimalDigits m
  have hval := digitsValue_decimalDigits m
  rw [hrest] at htake hval
  unfold parseInt
  simp only [String.toList, hrest, List.dropWhile_cons, h3]
  simp only [Bool.false_eq_true, if_false, readSign_digit d hd, htake, hval]
  simp

theorem shortestDecimal_round (fuel d x : Nat) (hx : roundToEven x = x) :
    roundToEven (shortestDecimal fuel d x) = x := by
  induction fuel generalizing d with
  | zero => exact hx
  | succ fuel ih =>
    simp only [shortestDecimal]
    split_ifs with h0 h1 h2 h3 h4 h5 h6
    · exact hx
    · exact h1.1
    · exact h1.2
    · exact h1.1
    · exact h1.2
    · exact h5
    · exact h6
    · exact ih _

theorem shortestDecimal_zero (fuel x : Nat) : shortestDecimal fuel 0 x = x := by
  cases fuel with
  | zero => rfl
  | succ fuel => simp [shortestDecimal]

theorem shortestDecimal_le (fuel j x bound : Nat) (hx : x < bound) (hdvd : 10 ^ j ∣ bound) :
    shortestDecimal fuel (10 ^ j) x ≤ bound := by
  induction fuel generalizing j with
  | zero => exact Nat.le_of_lt hx
  | succ fuel ih =>
    have hpos : 0 < 10 ^ j := by positivity
    have hlow : x / 10 ^ j * 10 ^ j ≤ bound :=
      (Nat.div_mul_le_self x (10 ^ j)).trans (Nat.le_of_lt hx)
    have hhigh : (x / 10 ^ j + 1) * 10 ^ j ≤ bound := by
      obtain ⟨c, hc⟩ := hdvd
      have hdiv : x / 10 ^ j < c := by
        rw [Nat.div_lt_iff_lt_mul hpos, Nat.mul_comm]
        rw [← hc]
        exact hx
      calc (x / 10 ^ j + 1) * 10 ^ j ≤ c * 10 ^ j := Nat.mul_le_mul_right _ hdiv
        _ = bound := by rw [hc, Nat.mul_comm]
    have hnext : shortestDecimal fuel (10 ^ j / 10) x ≤ bound := by
      cases j with
      | zero =>
        have h0 : (10 : Nat) ^ 0 / 10 = 0 := by decide
        rw [h0, shortestDecimal_zero]
        exact Nat.le_of_lt hx
      | succ j =>
        have h1 : (10 : Nat) ^ (j + 1) / 10 = 10 ^ j := by
          rw [Nat.pow_succ, Nat.mul_div_cancel _ (by omega : 0 < 10)]
        rw [h1]
        exact ih j (Dvd.dvd.trans (Nat.pow_dvd_pow 10 (Nat.le_succ j)) hdvd)
    simp only [shortestDecimal]
    split_ifs
    · exact Nat.le_of_lt hx
    · exact hlow
    · exact hhigh
    · exact hlow
    · exact hhigh
    · exact hlow
    · exact hhigh
    · exact hnext

theorem tenPowerAbove_spec (fuel j m x : Nat) (hm : m ≤ j + fuel) (hx : x < 10 ^ m) :
    ∃ k, tenPowerAbove fuel (10 ^ j) x = 10 ^ k ∧ x < 10 ^ k ∧ (k = j ∨ 10 ^ (k - 1) ≤ x) := by
  induction fuel generalizing j with
  | zero =>
    exact ⟨j, rfl, lt_of_lt_of_le hx (Nat.pow_le_pow_right (by omega) (by omega)), Or.inl rfl⟩
  | succ fuel ih =>
    simp only [tenPowerAbove]
    split
    · rename_i hlt
      exact ⟨j, rfl, hlt, Or.inl rfl⟩
    · rename_i hge
      have hstep : (10 : Nat) ^ j * 10 = 10 ^ (j + 1) := by rw [Nat.pow_succ]
      rw [hstep]
      obtain ⟨k, hk, hlt, hor⟩ := ih (j + 1) (by omega)
      refine ⟨k, hk, hlt, Or.inr ?_⟩
      rcases hor with rfl | h
      · simpa using Nat.le_of_not_lt hge
      · exact h

theorem natToString_plain (x : Nat) (hx : roundToEven x = x) (hlt : x < 10 ^ 21) :
    ∃ v, natToString x = decimalDigits v ∧ roundToEven v = x := by
  obtain ⟨k, hk, hxk, hor⟩ := tenPowerAbove_spec 400 0 21 x (by decide) hlt
  have hk21 : k ≤ 21 := by
    rcases hor with rfl | h
    · omega
    · by_contra hgt
      have : (10 : Nat) ^ 21 ≤ 10 ^ (k - 1) := Nat.pow_le_pow_right (by omega) (by omega)
      omega
  have hround := shortestDecimal_round 400 (tenPowerAbove 400 1 x / 10) x hx
  have hle : shortestDecimal 400 (tenPowerAbove 400 1 x / 10) x ≤ 10 ^ 21 := by
    have h1 : tenPowerAbove 400 1 x = 10 ^ k := by simpa using hk
    rw [h1]
    cases k with
    | zero =>
      have h0 : (10 : Nat) ^ 0 / 10 = 0 := by decide
      rw [h0, shortestDecimal_zero]
      omega
    | succ k =>
      have h2 : (10 : Nat) ^ (k + 1) / 10 = 10 ^ k := by
        rw [Nat.pow_succ, Nat.mul_div_cancel _ (by omega : 0 < 10)]
      rw [h2]
      exact shortestDecimal_le 400 k x (10 ^ 21) hlt (Nat.pow_dvd_pow 10 (by omega))
  have hne : shortestDecimal 400 (tenPowerAbove 400 1 x / 10) x ≠ 10 ^ 21 := by
    intro heq
    rw [heq] at hround
    have h21 : roundToEven (10 ^ 21) = 10 ^ 21 := by decide
    omega
  refine ⟨shortestDecimal 400 (tenPowerAbove 400 1 x / 10) x, ?_, hround⟩
  simp only [natToString]
  rw [if_pos (by omega)]

theorem ofRounded_of_isNumber (n : Int) (v : Nat) (hnum : isNumber n = true)
    (hv : roundToEven v = n.natAbs) : Num.ofRounded (decide (n < 0)) v = Num.ofInt n := by
  simp only [isNumber, Bool.and_eq_true, beq_iff_eq, decide_eq_true_eq] at hnum
  unfold Num.ofRounded
  rw [hv, if_neg (by omega)]
  by_cases hneg : n < 0
  · simp only [hneg, decide_True, if_true]
    congr 1
    omega
  · simp only [hneg, decide_False, Bool.false_eq_true, if_false]
    congr 1
    omega

theorem parseInt_toString (n : Int) (hnum : isNumber n = true) (hlt : n.natAbs < 10 ^ 21) :
    parseInt (Num.ofInt n).toString = Num.ofInt n := by
  have hx : roundToEven n.natAbs = n.natAbs := by
    simp only [isNumber, Bool.and_eq_true, beq_iff_eq] at hnum
    exact hnum.1
  obtain ⟨v, hv, hround⟩ := natToString_plain n.natAbs hx hlt
  simp only [Num.toString, hv]
  by_cases hneg : n < 0
  · rw [if_pos hneg, parseInt_mk_neg]
    have := ofRounded_of_isNumber n v hnum hround
    simpa [hneg] using this
  · rw [if_neg hneg, parseInt_mk_pos]
    have := ofRounded_of_isNumber n v hnum hround
    simpa [hneg] using this

theorem getBestScore_eq {σ : Type} (localStorage : LocalStorage σ) (store : σ) :
    GameStorage.getBestScore localStorage store =
      match localStorage.getItem store GameStorage.BEST_SCORE with
      | .ok score => .ok (GameStorage.parseOrZero score)
      | .error _ => .ok (Num.ofInt 0) := by
  unfold GameStorage.getBestScore
  cases localStorage.getItem store GameStorage.BEST_SCORE <;> rfl

theorem getTotalGames_eq {σ : Type} (localStorage : LocalStorage σ) (store : σ) :
    GameStorage.getTotalGames localStorage store =
      match localStorage.getItem store GameStorage.TOTAL_GAMES with
      | .ok total => .ok (GameStorage.parseOrZero total)
      | .error _ => .ok (Num.ofInt 0) := by
  unfold GameStorage.getTotalGames
  cases localStorage.getItem store GameStorage.TOTAL_GAMES <;> rfl

theorem getLastLevel_eq {σ : Type} (localStorage : LocalStorage σ) (store : σ) :
    GameStorage.getLastLevel localStorage store =
      match localStorage.getItem store GameStorage.LAST_LEVEL with
      | .ok level => .ok level
      | .error _ => .ok none := by
  unfold GameStorage.getLastLevel
  cases localStorage.getItem store GameStorage.LAST_LEVEL <;> rfl

theorem saveLastLevel_eq {σ : Type} (localStorage : LocalStorage σ) (store : σ)
    (level : String) :
    GameStorage.saveLastLevel localStorage store level =
      match localStorage.setItem store GameStorage.LAST_LEVEL level with
      | .ok store1 => .ok store1
      | .error _ => .ok store := by
  unfold GameStorage.saveLastLevel
  cases localStorage.setItem store GameStorage.LAST_LEVEL level <;> rfl

theorem getBestScore_ok {σ : Type} (localStorage : LocalStorage σ) (store : σ) :
    ∃ best, GameStorage.getBestScore localStorage store = .ok best := by
  rw [getBestScore_eq]
  cases localStorage.getItem store GameStorage.BEST_SCORE <;> exact ⟨_, rfl⟩

theorem getTotalGames_ok {σ : Type} (localStorage : LocalStorage σ) (store : σ) :
    ∃ total, GameStorage.getTotalGames localStorage store = .ok total := by
  rw [getTotalGames_eq]
  cases localStorage.getItem store GameStorage.TOTAL_GAMES <;> exact ⟨_, rfl⟩

theorem saveBestScore_eq {σ : Type} (localStorage : LocalStorage σ) (store : σ) (score : Int)
    (best : Num) (hbest : GameStorage.getBestScore localStorage store = .ok best) :
    GameStorage.saveBestScore localStorage store score =
      if (Num.ofInt score).gt best then
        match localStorage.setItem store GameStorage.BEST_SCORE (Num.ofInt score).toString with
        | .ok store1 => .ok (true, store1)
        | .error _ => .ok (false, store)
      else .ok (false, store) := by
  unfold GameStorage.saveBestScore
  rw [hbest]
  by_cases hgt : (Num.ofInt score).gt best = true
  · rw [if_pos hgt]
    cases hset : localStorage.setItem store GameStorage.BEST_SCORE (Num.ofInt score).toString
    · simp [hgt, hset, tryCatch, tryCatchThe, MonadExceptOf.tryCatch, Except.tryCatch, bind,
        Except.bind]
      rfl
    · simp [hgt, hset, tryCatch, tryCatchThe, MonadExceptOf.tryCatch, Except.tryCatch, bind,
        Except.bind]
      rfl
  · rw [if_neg hgt]
    simp [hgt, tryCatch, tryCatchThe, MonadExceptOf.tryCatch, Except.tryCatch, bind,
      Except.bind]
    rfl

theorem incrementGamesPlayed_eq {σ : Type} (localStorage : LocalStorage σ) (store : σ)
    (total : Num) (htotal : GameStorage.getTotalGames localStorage store = .ok total) :
    GameStorage.incrementGamesPlayed localStorage store =
      match localStorage.setItem store GameStorage.TOTAL_GAMES total.succ.toString with
      | .ok store1 => .ok store1
      | .error _ => .ok store := by
  unfold GameStorage.incrementGamesPlayed
  rw [htotal]
  cases hset : localStorage.setItem store GameStorage.TOTAL_GAMES total.succ.toString
  · simp [hset, tryCatch, tryCatchThe, MonadExceptOf.tryCatch, Except.tryCatch, bind,
      Except.bind]
    rfl
  · simp [hset, tryCatch, tryCatchThe, MonadExceptOf.tryCatch, Except.tryCatch, bind,
      Except.bind]


/-- C5, as stated, fails. The score `10^21` is an integer and a number; on a store without
the key `saveBestScore` returns true, but `toString` prints the score in exponent notation,
the key holds `1e+21`, and a following `getBestScore()` returns 1, not the score. -/
theorem saveBestScore_exponent_notation :
    isNumber (10 ^ 21) = true ∧
      GameStorage.getBestScore availableStorage (fun _ => none) = .ok (Num.ofInt 0) ∧
      GameStorage.saveBestScore availableStorage (fun _ => none) (10 ^ 21) =
        .ok (true, fun key => if key = GameStorage.BEST_SCORE then some "1e+21" else none) ∧
      GameStorage.getBestScore availableStorage
          (fun key => if key = GameStorage.BEST_SCORE then some "1e+21" else none) =
        .ok (Num.ofInt 1) ∧
      Num.ofInt 1 ≠ Num.ofInt (10 ^ 21) := by
  have htext : (Num.ofInt (10 ^ 21)).toString = "1e+21" := by decide
  have hgt : (Num.ofInt (10 ^ 21)).gt (Num.ofInt 0) = true := by decide
  refine ⟨by decide, rfl, ?_, rfl, by decide⟩
  rw [saveBestScore_eq availableStorage (fun _ => none) (10 ^ 21) (Num.ofInt 0) rfl, if_pos hgt,
    htext]
  rfl

/-- C5, amended. Best-score write on an available store whose best score reads as `b` (which
is 0 when the key is absent), for every integer score `s` that is a number of magnitude below
`10^21`: `saveBestScore(s)` returns false and leaves the store as it was when `s ≤ b`; when
`s > b` it returns true, the key holds the text of `s` and a following `getBestScore()`
returns `s`. -/
theorem saveBestScore_available (store : Store) (b s : Int)
    (hnumber : isNumber s = true) (hplain : s.natAbs < 10 ^ 21)
    (hbest : GameStorage.getBestScore availableStorage store = .ok (Num.ofInt b)) :
    (store GameStorage.BEST_SCORE = none → b = 0) ∧
      (s ≤ b → GameStorage.saveBestScore availableStorage store s = .ok (false, store)) ∧
      (s > b → ∃ store1 : Store,
        GameStorage.saveBestScore availableStorage store s = .ok (true, store1) ∧
          store1 GameStorage.BEST_SCORE = some (Num.ofInt s).toString ∧
          (∀ key, key ≠ GameStorage.BEST_SCORE → store1 key = store key) ∧
          GameStorage.getBestScore availableStorage store1 = .ok (Num.ofInt s)) := by
  refine ⟨?_, ?_, ?_⟩
  · intro hnone
    rw [getBestScore_eq] at hbest
    simp only [availableStorage, hnone, GameStorage.parseOrZero] at hbest
    have h := Except.ok.inj hbest
    exact (Num.ofInt.inj h).symm
  · intro hle
    rw [saveBestScore_eq _ _ _ _ hbest]
    have hgt : (Num.ofInt s).gt (Num.ofInt b) = false := by
      simp only [Num.gt, decide_eq_false_iff_not]
      omega
    simp [hgt]
  · intro hlt
    rw [saveBestScore_eq _ _ _ _ hbest]
    have hgt : (Num.ofInt s).gt (Num.ofInt b) = true := by
      simp only [Num.gt, decide_eq_true_eq]
      exact hlt
    refine ⟨fun k => if k = GameStorage.BEST_SCORE then some (Num.ofInt s).toString
      else store k, ?_, ?_, ?_, ?_⟩
    · simp [hgt, availableStorage]
    · simp
    · intro key hkey
      simp [hkey]
    · have hne : (Num.ofInt s).toString ≠ "" := by
        intro hempty
        have h := parseInt_toString s hnumber hplain
        rw [hempty] at h
        have hnan : parseInt "" = Num.nan := by decide
        rw [hnan] at h
        exact Num.noConfusion h
      rw [getBestScore_eq]
      simp only [availableStorage, if_true, GameStorage.parseOrZero, hne, if_false,
        parseInt_toString s hnumber hplain]

theorem saveBestScore_available_witness :
    isNumber 40 = true ∧ isNumber 60 = true ∧
    GameStorage.getBestScore availableStorage
        (fun key => if key = GameStorage.BEST_SCORE then some "50" else none) =
      .ok (Num.ofInt 50) ∧
    GameStorage.saveBestScore availableStorage
        (fun key => if key = GameStorage.BEST_SCORE then some "50" else none) 40 =
      .ok (false, fun key => if key = GameStorage.BEST_SCORE then some "50" else none) ∧
    ∃ store1 : Store,
      GameStorage.saveBestScore availableStorage
          (fun key => if key = GameStorage.BEST_SCORE then some "50" else none) 60 =
        .ok (true, store1) ∧
      GameStorage.getBestScore availableStorage store1 = .ok (Num.ofInt 60) :=
  ⟨by decide, by decide, rfl,
    (saveBestScore_available
      (fun key => if key = GameStorage.BEST_SCORE then some "50" else none) 50 40
      (by decide) (by decide) rfl).2.1 (by decide),
    match (saveBestScore_available
      (fun key => if key = GameStorage.BEST_SCORE then some "50" else none) 50 60
      (by decide) (by decide) rfl).2.2 (by decide) with
    | ⟨store1, hsave, _, _, hget⟩ => ⟨store1, hsave, hget⟩⟩

/-- C8. Storage operations never raise to the caller: whatever the underlying store does on
a read or a write, each of the six operations returns; a raising read makes `getBestScore`
and `getTotalGames` return 0 and `getLastLevel` return null, a raising write makes
`saveBestScore` return false; with the store unavailable the results are 0, 0, null and false;
and on an available store without the best-score key `getBestScore` returns 0. -/
theorem storage_never_raises {σ : Type} (localStorage : LocalStorage σ) (store : σ)
    (score : Int) (level : String) :
    ((∃ best, GameStorage.getBestScore localStorage store = .ok best) ∧
      (∃ result, GameStorage.saveBestScore localStorage store score = .ok result) ∧
      (∃ last, GameStorage.getLastLevel localStorage store = .ok last) ∧
      (∃ store1, GameStorage.saveLastLevel localStorage store level = .ok store1) ∧
      (∃ total, GameStorage.getTotalGames localStorage store = .ok total) ∧
      (∃ store1, GameStorage.incrementGamesPlayed localStorage store = .ok store1)) ∧
    ((∀ e, localStorage.getItem store GameStorage.BEST_SCORE = .error e →
        GameStorage.getBestScore localStorage store = .ok (Num.ofInt 0)) ∧
      (∀ e, localStorage.getItem store GameStorage.TOTAL_GAMES = .error e →
        GameStorage.getTotalGames localStorage store = .ok (Num.ofInt 0)) ∧
      (∀ e, localStorage.getItem store GameStorage.LAST_LEVEL = .error e →
        GameStorage.getLastLevel localStorage store = .ok none) ∧
      (∀ e, localStorage.setItem store GameStorage.BEST_SCORE (Num.ofInt score).toString =
          .error e →
        GameStorage.saveBestScore localStorage store score = .ok (false, store))) ∧
    (GameStorage.getBestScore unavailableStorage () = .ok (Num.ofInt 0) ∧
      GameStorage.getTotalGames unavailableStorage () = .ok (Num.ofInt 0) ∧
      GameStorage.getLastLevel unavailableStorage () = .ok none ∧
      GameStorage.saveBestScore unavailableStorage () score = .ok (false, ())) ∧
    ∀ available : Store, available GameStorage.BEST_SCORE = none →
      GameStorage.getBestScore availableStorage available = .ok (Num.ofInt 0) := by
  obtain ⟨best, hbest⟩ := getBestScore_ok localStorage store
  obtain ⟨total, htotal⟩ := getTotalGames_ok localStorage store
  refine ⟨⟨⟨best, hbest⟩, ?_, ?_, ?_, ⟨total, htotal⟩, ?_⟩, ⟨?_, ?_, ?_, ?_⟩, ⟨rfl, rfl, rfl, ?_⟩, ?_⟩
  · rw [saveBestScore_eq _ _ _ _ hbest]
    split
    · cases localStorage.setItem store GameStorage.BEST_SCORE (Num.ofInt score).toString <;>
        exact ⟨_, rfl⟩
    · exact ⟨_, rfl⟩
  · rw [getLastLevel_eq]
    cases localStorage.getItem store GameStorage.LAST_LEVEL <;> exact ⟨_, rfl⟩
  · rw [saveLastLevel_eq]
    cases localStorage.setItem store GameStorage.LAST_LEVEL level <;> exact ⟨_, rfl⟩
  · rw [incrementGamesPlayed_eq _ _ _ htotal]
    cases localStorage.setItem store GameStorage.TOTAL_GAMES total.succ.toString <;>
      exact ⟨_, rfl⟩
  · intro e he
    rw [getBestScore_eq, he]
  · intro e he
    rw [getTotalGames_eq, he]
  · intro e he
    rw [getLastLevel_eq, he]
  · intro e he
    rw [saveBestScore_eq _ _ _ _ hbest, he]
    split <;> rfl
  · rw [saveBestScore_eq unavailableStorage () score (Num.ofInt 0) rfl]
    split <;> rfl
  · intro available hnone
    rw [getBestScore_eq]
    simp [availableStorage, hnone, GameStorage.parseOrZero]

/-! ## The turn state machine: what each handler does -/

theorem flipCard_some (g g1 : GameState) (cardId : Nat) (h : flipCard g cardId = some g1) :
    ∃ card, g.cards[cardId]? = some card ∧
      g1 = { g with cards := g.cards.set cardId { card with isFlipped := true } } := by
  unfold flipCard at h
  split at h
  · exact absurd h (by simp)
  · rename_i card hcard
    exact ⟨card, hcard, (Option.some.inj h).symm⟩

theorem unflipCard_some (g g1 : GameState) (cardId : Nat) (h : unflipCard g cardId = some g1) :
    ∃ card, g.cards[cardId]? = some card ∧
      g1 = { g with cards := g.cards.set cardId { card with isFlipped := false } } := by
  unfold unflipCard at h
  split at h
  · exact absurd h (by simp)
  · rename_i card hcard
    exact ⟨card, hcard, (Option.some.inj h).symm⟩

theorem markMatched_some (g g1 : GameState) (cardId : Nat) (h : markMatched g cardId = some g1) :
    ∃ card, g.cards[cardId]? = some card ∧
      g1 = { g with cards := g.cards.set cardId { card with isMatched := true } } := by
  unfold markMatched at h
  split at h
  · exact absurd h (by simp)
  · rename_i card hcard
    exact ⟨card, hcard, (Option.some.inj h).symm⟩

theorem updateStars_some (g g1 : GameState) (h : updateStars g = some g1) :
    ∃ level, g.currentLevel = some level ∧
      g1 = { g with stars := starsFor (GAME_CONFIG level).pairs g.moves } := by
  unfold updateStars at h
  cases hl : g.currentLevel with
  | none => simp [hl, configOf] at h
  | some level =>
    simp only [hl, configOf, Option.map_some'] at h
    exact ⟨level, rfl, (Option.some.inj h).symm⟩

theorem updateStars_of_level (g : GameState) (level : Level) (h : g.currentLevel = some level) :
    updateStars g = some { g with stars := starsFor (GAME_CONFIG level).pairs g.moves } := by
  unfold updateStars
  simp only [h, configOf, Option.map_some']
  rfl

theorem checkMatch_some (w w1 : World) (h : checkMatch w = some w1) :
    ∃ a b rest card1 card2 level,
      w.gameState.flippedCards = a :: b :: rest ∧
      w.gameState.cards[a]? = some card1 ∧ w.gameState.cards[b]? = some card2 ∧
      w.gameState.currentLevel = some level ∧
      w1 = World.setTimeout { w with gameState := { w.gameState with isChecking := true } }
        (if card1.value = card2.value then Callback.handleMatch a b
          else Callback.handleNoMatch a b) (GAME_CONFIG level).matchDelay := by
  unfold checkMatch at h
  simp only at h
  split at h
  · rename_i a b rest hfl
    split at h
    · rename_i card1 card2 h1 h2
      cases hl : w.gameState.currentLevel with
      | none => simp [hl, configOf] at h
      | some level =>
        simp only [hl, configOf, Option.map_some'] at h
        refine ⟨a, b, rest, card1, card2, level, hfl, h1, h2, rfl, ?_⟩
        split at h
        · rename_i heq
          rw [if_pos heq, (Option.some.inj h).symm]
          simp [hl]
        · rename_i hne
          rw [if_neg hne, (Option.some.inj h).symm]
          simp [hl]
    · exact absurd h (by simp)
  · exact absurd h (by simp)

theorem handleMatch_some (w w1 : World) (a b : Nat) (h : handleMatch w a b = some w1) :
    ∃ card1 card2 level,
      w.gameState.cards[a]? = some card1 ∧
      (w.gameState.cards.set a { card1 with isMatched := true })[b]? = some card2 ∧
      w.gameState.currentLevel = some level ∧
      w1.gameState = { w.gameState with
        cards := (w.gameState.cards.set a { card1 with isMatched := true }).set b
          { card2 with isMatched := true },
        matchedPairs := w.gameState.matchedPairs + 1,
        score := w.gameState.score + 10,
        flippedCards := [], isChecking := false } ∧
      ((w.gameState.matchedPairs + 1 = (GAME_CONFIG level).pairs ∧
          w1.timers = w.timers ++ [Callback.completeGame] ∧
          w1.log = w.log ++ [Effect.setTimeout Callback.completeGame 500]) ∨
        (w.gameState.matchedPairs + 1 ≠ (GAME_CONFIG level).pairs ∧
          w1.timers = w.timers ∧ w1.log = w.log)) := by
  unfold handleMatch at h
  cases h1 : markMatched w.gameState a with
  | none => simp [h1] at h
  | some g1 =>
    obtain ⟨card1, hc1, rfl⟩ := markMatched_some _ _ _ h1
    simp only [h1] at h
    cases h2 : markMatched
        { w.gameState with cards := w.gameState.cards.set a { card1 with isMatched := true } } b with
    | none => simp [h2] at h
    | some g2 =>
      obtain ⟨card2, hc2, rfl⟩ := markMatched_some _ _ _ h2
      simp only [h2] at h
      cases hl : w.gameState.currentLevel with
      | none => simp [hl, configOf, resetTurn] at h
      | some level =>
        simp only [hl, configOf, resetTurn, Option.map_some'] at h
        refine ⟨card1, card2, level, hc1, hc2, rfl, ?_⟩
        split at h
        · rename_i heq
          have := Option.some.inj h
          subst this
          exact ⟨by simp [World.setTimeout, hl], Or.inl ⟨heq, rfl, rfl⟩⟩
        · rename_i hne
          have := Option.some.inj h
          subst this
          exact ⟨by simp [hl], Or.inr ⟨hne, rfl, rfl⟩⟩

theorem handleNoMatch_some (w w1 : World) (a b : Nat) (h : handleNoMatch w a b = some w1) :
    ∃ card1 card2 level,
      w.gameState.cards[a]? = some card1 ∧
      (w.gameState.cards.set a { card1 with isFlipped := false })[b]? = some card2 ∧
      w.gameState.currentLevel = some level ∧
      w1 = { w with gameState := { w.gameState with
        cards := (w.gameState.cards.set a { card1 with isFlipped := false }).set b
          { card2 with isFlipped := false },
        stars := starsFor (GAME_CONFIG level).pairs w.gameState.moves,
        flippedCards := [], isChecking := false } } := by
  unfold handleNoMatch at h
  cases h1 : unflipCard w.gameState a with
  | none => simp [h1] at h
  | some g1 =>
    obtain ⟨card1, hc1, rfl⟩ := unflipCard_some _ _ _ h1
    simp only [h1] at h
    cases h2 : unflipCard
        { w.gameState with cards := w.gameState.cards.set a { card1 with isFlipped := false } } b with
    | none => simp [h2] at h
    | some g2 =>
      obtain ⟨card2, hc2, rfl⟩ := unflipCard_some _ _ _ h2
      simp only [h2] at h
      cases h3 : updateStars { w.gameState with
          cards := (w.gameState.cards.set a { card1 with isFlipped := false }).set b
            { card2 with isFlipped := false } } with
      | none => simp [h3] at h
      | some g3 =>
        obtain ⟨level, hl, rfl⟩ := updateStars_some _ _ h3
        simp only [h3, resetTurn] at h
        exact ⟨card1, card2, level, hc1, hc2, hl, (Option.some.inj h).symm⟩

theorem handleCardClick_some (w w1 : World) (cardId : Nat)
    (h : handleCardClick w cardId = some w1) :
    w1 = w ∨
      (w.gameState.isChecking = false ∧ ∃ card,
        w.gameState.cards[cardId]? = some card ∧ card.isFlipped = false ∧
        card.isMatched = false ∧ w.gameState.flippedCards.length < 2 ∧
        ((w.gameState.flippedCards.length = 1 ∧
            checkMatch { w with gameState := { w.gameState with
              cards := w.gameState.cards.set cardId { card with isFlipped := true },
              flippedCards := w.gameState.flippedCards ++ [cardId],
              moves := w.gameState.moves + 1 } } = some w1) ∨
          (w.gameState.flippedCards.length = 0 ∧
            w1 = { w with gameState := { w.gameState with
              cards := w.gameState.cards.set cardId { card with isFlipped := true },
              flippedCards := w.gameState.flippedCards ++ [cardId] } }))) := by
  unfold handleCardClick at h
  split at h
  · exact Or.inl (Option.some.inj h).symm
  · rename_i hchk
    split at h
    · exact absurd h (by simp)
    · rename_i card hcard
      split at h
      · exact Or.inl (Option.some.inj h).symm
      · rename_i hfm
        split at h
        · exact Or.inl (Option.some.inj h).symm
        · rename_i hlen
          have hflip : flipCard w.gameState cardId = some { w.gameState with
              cards := w.gameState.cards.set cardId { card with isFlipped := true } } := by
            simp [flipCard, hcard]
          simp only [hflip, List.length_append, List.length_singleton] at h
          simp only [Bool.or_eq_true, not_or, Bool.not_eq_true] at hfm
          refine Or.inr ⟨by simpa using hchk, card, hcard, hfm.1, hfm.2, by omega, ?_⟩
          split at h
          · rename_i h2
            exact Or.inl ⟨by omega, h⟩
          · rename_i h2
            exact Or.inr ⟨by omega, (Option.some.inj h).symm⟩

theorem handleCardClick_second (w : World) (cardId : Nat) (card : Card)
    (hidle : w.gameState.isChecking = false)
    (hcard : w.gameState.cards[cardId]? = some card) (hdown : card.isFlipped = false)
    (hunmatched : card.isMatched = false) (hone : w.gameState.flippedCards.length = 1) :
    handleCardClick w cardId =
      checkMatch { w with gameState := { w.gameState with
        cards := w.gameState.cards.set cardId { card with isFlipped := true },
        flippedCards := w.gameState.flippedCards ++ [cardId],
        moves := w.gameState.moves + 1 } } := by
  simp [handleCardClick, hidle, hcard, hdown, hunmatched, hone, flipCard]

theorem handleCardClick_first (w : World) (cardId : Nat) (card : Card)
    (hidle : w.gameState.isChecking = false)
    (hcard : w.gameState.cards[cardId]? = some card) (hdown : card.isFlipped = false)
    (hunmatched : card.isMatched = false) (hnone : w.gameState.flippedCards.length = 0) :
    handleCardClick w cardId =
      some { w with gameState := { w.gameState with
        cards := w.gameState.cards.set cardId { card with isFlipped := true },
        flippedCards := w.gameState.flippedCards ++ [cardId] } } := by
  simp [handleCardClick, hidle, hcard, hdown, hunmatched, hnone, flipCard]

theorem handleMatch_isSome (w : World) (a b : Nat) (level : Level)
    (ha : a < w.gameState.cards.length) (hb : b < w.gameState.cards.length)
    (hl : w.gameState.currentLevel = some level) : ∃ w1, handleMatch w a b = some w1 := by
  have h1 : w.gameState.cards[a]? = some w.gameState.cards[a] := List.getElem?_eq_getElem ha
  have hb1 : b < (w.gameState.cards.set a { w.gameState.cards[a] with isMatched := true }).length := by
    simpa using hb
  have h2 := List.getElem?_eq_getElem hb1
  unfold handleMatch
  simp only [markMatched, h1, h2, hl, configOf, Option.map_some', resetTurn]
  split <;> exact ⟨_, rfl⟩

theorem handleNoMatch_isSome (w : World) (a b : Nat) (level : Level)
    (ha : a < w.gameState.cards.length) (hb : b < w.gameState.cards.length)
    (hl : w.gameState.currentLevel = some level) : ∃ w1, handleNoMatch w a b = some w1 := by
  have h1 : w.gameState.cards[a]? = some w.gameState.cards[a] := List.getElem?_eq_getElem ha
  have hb1 : b < (w.gameState.cards.set a { w.gameState.cards[a] with isFlipped := false }).length := by
    simpa using hb
  have h2 := List.getElem?_eq_getElem hb1
  unfold handleNoMatch
  simp only [unflipCard, h1, h2]
  rw [updateStars_of_level _ level (by simpa using hl)]
  exact ⟨_, rfl⟩

theorem getElem?_set_set_left {α : Type} (l : List α) (a b : Nat) (x y : α)
    (ha : a < l.length) : ∃ z, ((l.set a x).set b y)[a]? = some z ∧ (z = x ∨ z = y) := by
  by_cases hab : b = a
  · subst hab
    exact ⟨y, by rw [List.getElem?_set_self (by simpa using ha)], Or.inr rfl⟩
  · exact ⟨x, by rw [List.getElem?_set_ne hab, List.getElem?_set_self ha], Or.inl rfl⟩

theorem getElem?_set_set_right {α : Type} (l : List α) (a b : Nat) (x y : α)
    (hb : b < l.length) : ((l.set a x).set b y)[b]? = some y := by
  rw [List.getElem?_set_self (by simpa using hb)]

theorem getElem?_set_isMatched (cards : List Card) (a b : Nat) (card card1 : Card)
    (hcard : (cards.set a card1)[b]? = some card) (hcard1 : ∀ c, cards[a]? = some c →
      card1.isMatched = c.isMatched) (x : Card) (hx : cards[b]? = some x) :
    card.isMatched = x.isMatched := by
  by_cases hab : a = b
  · subst hab
    rw [List.getElem?_set_self (List.getElem?_eq_some_iff.mp hx).1] at hcard
    rw [← Option.some.inj hcard]
    exact hcard1 x hx
  · rw [List.getElem?_set_ne hab, hx] at hcard
    rw [Option.some.inj hcard]

theorem handleCardClick_noop (w : World) (cardId : Nat) (card : Card)
    (hcard : w.gameState.cards[cardId]? = some card)
    (hblocked : w.gameState.isChecking = true ∨ card.isFlipped = true ∨ card.isMatched = true) :
    handleCardClick w cardId = some w := by
  unfold handleCardClick
  by_cases hchk : w.gameState.isChecking = true
  · simp [hchk]
  · rcases hblocked with h | h | h
    · exact absurd h hchk
    · simp [hchk, hcard, h]
    · simp [hchk, hcard, h]

/-- C4. A click is a no-op in the blocked cases: when a resolution is in progress
(`isChecking`), or the clicked card is face up, or it is matched, `handleCardClick` returns
with the game state, the pending timers and the log of calls all as they were, so nothing is
scheduled. -/
theorem handleCardClick_blocked (w : World) (cardId : Nat) (card : Card)
    (hcard : w.gameState.cards[cardId]? = some card)
    (hblocked : w.gameState.isChecking = true ∨ card.isFlipped = true ∨ card.isMatched = true) :
    handleCardClick w cardId = some w ∧
      ∀ w1 : World, handleCardClick w cardId = some w1 →
        w1.gameState = w.gameState ∧ w1.timers = w.timers ∧ w1.log = w.log := by
  have h := handleCardClick_noop w cardId card hcard hblocked
  refine ⟨h, ?_⟩
  intro w1 h1
  rw [h] at h1
  rw [← Option.some.inj h1]
  exact ⟨rfl, rfl, rfl⟩

theorem step_fire_mem (w : World) (callback : Callback) (h : callback ∈ w.timers) :
    step w (Input.fire callback) =
      runCallback { w with timers := w.timers.erase callback } callback := by
  simp [step, h]

/-- C1. Match adjudication. Let a click flip a second face-down, unmatched card while one
card is face up and no resolution is in progress. Then `checkMatch` has scheduled one
resolution for the two cards in `flippedCards`, and when it fires: if the two values are
equal both cards are matched, `matchedPairs` grows by 1 and `score` by exactly 10; if they
differ both cards are face down again and `score` is unchanged; in both cases `flippedCards`
is empty and `isChecking` is false afterwards. -/
theorem match_adjudication (w w1 : World) (first cardId : Nat) (card : Card)
    (hidle : w.gameState.isChecking = false)
    (hfirst : w.gameState.flippedCards = [first])
    (hcard : w.gameState.cards[cardId]? = some card)
    (hdown : card.isFlipped = false) (hunmatched : card.isMatched = false)
    (hclick : handleCardClick w cardId = some w1) :
    ∃ (card1 card2 : Card) (resolution : Callback) (w2 : World),
      w1.gameState.cards[first]? = some card1 ∧ w1.gameState.cards[cardId]? = some card2 ∧
      w1.gameState.flippedCards = [first, cardId] ∧ w1.gameState.isChecking = true ∧
      resolution = (if card1.value = card2.value then Callback.handleMatch first cardId
        else Callback.handleNoMatch first cardId) ∧
      w1.timers = w.timers ++ [resolution] ∧
      step w1 (Input.fire resolution) = some w2 ∧
      (card1.value = card2.value →
        (∃ c, w2.gameState.cards[first]? = some c ∧ c.isMatched = true) ∧
        (∃ c, w2.gameState.cards[cardId]? = some c ∧ c.isMatched = true) ∧
        w2.gameState.matchedPairs = w1.gameState.matchedPairs + 1 ∧
        w2.gameState.score = w1.gameState.score + 10) ∧
      (card1.value ≠ card2.value →
        (∃ c, w2.gameState.cards[first]? = some c ∧ c.isFlipped = false) ∧
        (∃ c, w2.gameState.cards[cardId]? = some c ∧ c.isFlipped = false) ∧
        w2.gameState.score = w1.gameState.score) ∧
      w2.gameState.flippedCards = [] ∧ w2.gameState.isChecking = false := by
  rw [handleCardClick_second w cardId card hidle hcard hdown hunmatched (by simp [hfirst])]
    at hclick
  obtain ⟨a, b, rest, card1, card2, level, hfl, hc1, hc2, hl, hw1⟩ := checkMatch_some _ _ hclick
  simp only [hfirst, List.singleton_append, List.cons.injEq] at hfl
  obtain ⟨rfl, rfl, -⟩ := hfl
  simp only at hc1 hc2 hl
  have hlen1 : first < w1.gameState.cards.length := by
    rw [hw1]; exact (List.getElem?_eq_some_iff.mp hc1).1
  have hlen2 : cardId < w1.gameState.cards.length := by
    rw [hw1]; exact (List.getElem?_eq_some_iff.mp hc2).1
  have hlevel : w1.gameState.currentLevel = some level := by rw [hw1]; exact hl
  have hcards1 : w1.gameState.cards[first]? = some card1 := by rw [hw1]; exact hc1
  have hcards2 : w1.gameState.cards[cardId]? = some card2 := by rw [hw1]; exact hc2
  have htimers : w1.timers = w.timers ++ [if card1.value = card2.value then
      Callback.handleMatch first cardId else Callback.handleNoMatch first cardId] := by
    rw [hw1]; rfl
  have hmem : (if card1.value = card2.value then Callback.handleMatch first cardId
      else Callback.handleNoMatch first cardId) ∈ w1.timers := by
    rw [htimers]; simp
  have hflipped : w1.gameState.flippedCards = [first, cardId] := by
    rw [hw1]; simp [World.setTimeout, hfirst]
  have hchecking : w1.gameState.isChecking = true := by rw [hw1]; rfl
  by_cases heq : card1.value = card2.value
  · obtain ⟨w2, hw2⟩ := handleMatch_isSome
      { w1 with timers := w1.timers.erase (Callback.handleMatch first cardId) }
      first cardId level hlen1 hlen2 hlevel
    obtain ⟨c1, c2, -, hg1, hg2, -, hgs, -⟩ := handleMatch_some _ _ _ _ hw2
    simp only at hg1 hg2 hgs
    refine ⟨card1, card2, _, w2, hcards1, hcards2, hflipped, hchecking, rfl, htimers, ?_, ?_, ?_,
      ?_, ?_⟩
    · rw [step_fire_mem _ _ hmem]
      simp only [if_pos heq]
      exact hw2
    · intro _
      refine ⟨?_, ?_, ?_, ?_⟩
      · obtain ⟨z, hz, hz1⟩ := getElem?_set_set_left w1.gameState.cards first cardId
          { c1 with isMatched := true } { c2 with isMatched := true } hlen1
        refine ⟨z, by rw [hgs]; exact hz, ?_⟩
        rcases hz1 with rfl | rfl <;> rfl
      · exact ⟨_, by rw [hgs]; exact getElem?_set_set_right _ _ _ _ _ hlen2, rfl⟩
      · rw [hgs]
      · rw [hgs]
    · intro hne
      exact absurd heq hne
    · rw [hgs]
    · rw [hgs]
  · obtain ⟨w2, hw2⟩ := handleNoMatch_isSome
      { w1 with timers := w1.timers.erase (Callback.handleNoMatch first cardId) }
      first cardId level hlen1 hlen2 hlevel
    obtain ⟨c1, c2, level2, hg1, hg2, -, hgs⟩ := handleNoMatch_some _ _ _ _ hw2
    simp only at hg1 hg2 hgs
    refine ⟨card1, card2, _, w2, hcards1, hcards2, hflipped, hchecking, rfl, htimers, ?_, ?_, ?_,
      ?_, ?_⟩
    · rw [step_fire_mem _ _ hmem]
      simp only [if_neg heq]
      exact hw2
    · intro h
      exact absurd h heq
    · intro _
      refine ⟨?_, ?_, ?_⟩
      · obtain ⟨z, hz, hz1⟩ := getElem?_set_set_left w1.gameState.cards first cardId
          { c1 with isFlipped := false } { c2 with isFlipped := false } hlen1
        refine ⟨z, by rw [hgs]; exact hz, ?_⟩
        rcases hz1 with rfl | rfl <;> rfl
      · exact ⟨_, by rw [hgs]; exact getElem?_set_set_right _ _ _ _ _ hlen2, rfl⟩
      · rw [hgs]
    · rw [hgs]
    · rw [hgs]

/-! ## The invariant of a running game -/

theorem countP_erase_add {α : Type} [DecidableEq α] (p : α → Bool) (l : List α) (a : α)
    (h : a ∈ l) : (l.erase a).countP p + (if p a then 1 else 0) = l.countP p := by
  have hperm := (List.perm_cons_erase h).countP_eq p
  rw [hperm, List.countP_cons]

theorem countP_set_same {α : Type} (p : α → Bool) (l : List α) (i : Nat) (old new : α)
    (hold : l[i]? = some old) (hp : p new = p old) : (l.set i new).countP p = l.countP p := by
  obtain ⟨hi, hget⟩ := List.getElem?_eq_some_iff.mp hold
  have hle := List.boole_getElem_le_countP p l i hi
  rw [List.countP_set p l i new hi, hget, hp]
  rw [hget] at hle
  omega

theorem countP_set_new {α : Type} (p : α → Bool) (l : List α) (i : Nat) (old new : α)
    (hold : l[i]? = some old) (hp : p old = false) (hnew : p new = true) :
    (l.set i new).countP p = l.countP p + 1 := by
  obtain ⟨hi, hget⟩ := List.getElem?_eq_some_iff.mp hold
  rw [List.countP_set p l i new hi, hget, hp, hnew]
  simp

theorem completionsScheduled_append (log : List Effect) (effect : Effect) :
    completionsScheduled (log ++ [effect]) = completionsScheduled log +
      (if effect = Effect.setTimeout Callback.completeGame 500 then 1 else 0) := by
  unfold completionsScheduled
  rw [List.count_append, List.count_singleton]
  simp only [beq_iff_eq]

theorem savedScores_append_setTimeout (log : List Effect) (callback : Callback) (delay : Nat) :
    savedScores (log ++ [Effect.setTimeout callback delay]) = savedScores log := by
  simp [savedScores, List.filterMap_append]

theorem savedScores_append_save (log : List Effect) (score : Nat) :
    savedScores (log ++ [Effect.saveBestScore score]) = savedScores log ++ [score] := by
  simp [savedScores, List.filterMap_append]

theorem startGame_eq (rnd : Nat → Nat) (level : Level) (w : World) :
    startGame rnd level w = some
      { gameState := { createBoard rnd level (resetGameState level) with stars := 3 },
        timers := w.timers,
        log := w.log ++ [Effect.saveLastLevel level, Effect.incrementGamesPlayed] } := by
  unfold startGame
  rw [updateStars_of_level _ level rfl]
  rfl

theorem resolution_not_mem (timers : List Callback)
    (h : timers.countP Callback.isResolution = 0) (callback : Callback)
    (hmem : callback ∈ timers) : callback.isResolution = false := by
  rw [List.countP_eq_zero] at h
  simpa using h callback hmem

theorem startGame_inv (rnd : Nat → Nat) (level : Level) (w0 w1 : World)
    (hquiet : w0.timers = []) (hstart : startGame rnd level w0 = some w1) :
    GameInv level w1.log w1 := by
  rw [startGame_eq] at hstart
  have hw1 := (Option.some.inj hstart).symm
  subst hw1
  have hunflipped : ∀ (i : Nat) (card : Card),
      (createBoard rnd level (resetGameState level)).cards[i]? = some card →
        card.isFlipped = false ∧ card.isMatched = false := by
    intro i card hcard
    rw [createBoard_getElem?] at hcard
    obtain ⟨emoji, -, rfl⟩ := Option.map_eq_some'.mp hcard
    exact ⟨rfl, rfl⟩
  refine
    { level_eq := rfl
      cards_length := createBoard_length rnd level
      flipped_valid := ?_
      flipped_nodup := ?_
      matched_flipped := ?_
      outstanding := ?_
      checking := ?_
      idle := ?_
      matched_count := ?_
      score_eq := rfl
      complete_pending := ?_
      log_eq := ?_ }
  · intro id hid
    simp [createBoard, resetGameState] at hid
  · simp [createBoard, resetGameState]
  · intro i card hcard hmatched
    have := (hunflipped i card hcard).2
    rw [this] at hmatched
    exact absurd hmatched (by simp)
  · simp [resolutionsOutstanding, hquiet, createBoard, resetGameState]
  · intro h
    simp [createBoard, resetGameState] at h
  · intro _
    simp [createBoard, resetGameState]
  · simp [createBoard, resetGameState]
  · intro h
    simp [hquiet] at h
  · refine ⟨[], by simp, ?_, ?_⟩
    · have hpos : (0 : Nat) ≠ (GAME_CONFIG level).pairs := by cases level <;> decide
      simp [completionsScheduled, createBoard, resetGameState, hpos]
    · intro score hscore
      simp [savedScores] at hscore

theorem getElem?_set_flip (cards : List Card) (cardId i : Nat) (card new c : Card)
    (hcard : cards[cardId]? = some card) (hc : (cards.set cardId new)[i]? = some c) :
    (i = cardId ∧ c = new) ∨ (i ≠ cardId ∧ cards[i]? = some c) := by
  by_cases hi : cardId = i
  · subst hi
    rw [List.getElem?_set_self (List.getElem?_eq_some_iff.mp hcard).1] at hc
    exact Or.inl ⟨rfl, (Option.some.inj hc).symm⟩
  · rw [List.getElem?_set_ne hi] at hc
    exact Or.inr ⟨fun h => hi h.symm, hc⟩

theorem inv_click_first (level : Level) (log0 : List Effect) (w : World) (cardId : Nat)
    (card : Card) (hinv : GameInv level log0 w)
    (hcard : w.gameState.cards[cardId]? = some card)
    (hunmatched : card.isMatched = false) (hnone : w.gameState.flippedCards.length = 0)
    (hidle : w.gameState.isChecking = false) :
    GameInv level log0 { w with gameState := { w.gameState with
      cards := w.gameState.cards.set cardId { card with isFlipped := true },
      flippedCards := w.gameState.flippedCards ++ [cardId] } } := by
  have hnil : w.gameState.flippedCards = [] := List.length_eq_zero.mp hnone
  have hlt := (List.getElem?_eq_some_iff.mp hcard).1
  refine
    { level_eq := hinv.level_eq
      cards_length := by simpa using hinv.cards_length
      flipped_valid := ?_
      flipped_nodup := by simp [hnil]
      matched_flipped := ?_
      outstanding := hinv.outstanding
      checking := by
        intro h
        exact absurd (h : w.gameState.isChecking = true) (by simp [hidle])
      idle := by intro _; simp [hnil]
      matched_count := ?_
      score_eq := hinv.score_eq
      complete_pending := hinv.complete_pending
      log_eq := hinv.log_eq }
  · intro id hid
    simp only [hnil, List.nil_append, List.mem_singleton] at hid
    subst hid
    exact ⟨_, List.getElem?_set_self hlt, rfl, hunmatched⟩
  · intro i c hc hm
    rcases getElem?_set_flip _ _ _ _ _ c hcard hc with ⟨-, rfl⟩ | ⟨-, hold⟩
    · rfl
    · exact hinv.matched_flipped i c hold hm
  · have := countP_set_same (fun c : Card => c.isMatched) w.gameState.cards cardId card
      { card with isFlipped := true } hcard rfl
    simp only
    rw [this]
    exact hinv.matched_count

theorem inv_click_second (level : Level) (log0 : List Effect) (w w1 : World) (cardId : Nat)
    (card : Card) (hinv : GameInv level log0 w)
    (hcard : w.gameState.cards[cardId]? = some card) (hdown : card.isFlipped = false)
    (hunmatched : card.isMatched = false) (hone : w.gameState.flippedCards.length = 1)
    (hidle : w.gameState.isChecking = false)
    (hcheck : checkMatch { w with gameState := { w.gameState with
      cards := w.gameState.cards.set cardId { card with isFlipped := true },
      flippedCards := w.gameState.flippedCards ++ [cardId],
      moves := w.gameState.moves + 1 } } = some w1) :
    GameInv level log0 w1 := by
  obtain ⟨first, hfirst⟩ := List.length_eq_one.mp hone
  have hlt := (List.getElem?_eq_some_iff.mp hcard).1
  obtain ⟨a, b, rest, card1, card2, level1, hfl, hc1, hc2, hl, hw1⟩ := checkMatch_some _ _ hcheck
  simp only [hfirst, List.singleton_append, List.cons.injEq] at hfl
  obtain ⟨rfl, rfl, -⟩ := hfl
  simp only at hc1 hc2 hl
  obtain ⟨cfirst, hcfirst, hfirstUp, hfirstUn⟩ := hinv.flipped_valid first (by simp [hfirst])
  have hne : first ≠ cardId := by
    intro h
    subst h
    rw [hcard] at hcfirst
    rw [Option.some.inj hcfirst, hfirstUp] at hdown
    exact absurd hdown (by simp)
  have hzero : w.timers.countP Callback.isResolution = 0 := by
    have := hinv.outstanding
    simpa [resolutionsOutstanding, hidle] using this
  obtain ⟨rest0, hlog, hcompl, hsaved⟩ := hinv.log_eq
  subst hw1
  refine
    { level_eq := hinv.level_eq
      cards_length := by simpa [World.setTimeout] using hinv.cards_length
      flipped_valid := ?_
      flipped_nodup := by simp [World.setTimeout, hfirst, hne]
      matched_flipped := ?_
      outstanding := ?_
      checking := ?_
      idle := by intro h; simp [World.setTimeout] at h
      matched_count := ?_
      score_eq := hinv.score_eq
      complete_pending := ?_
      log_eq := ?_ }
  · intro id hid
    simp only [World.setTimeout, hfirst, List.singleton_append, List.mem_cons,
      List.mem_singleton, List.not_mem_nil, or_false] at hid
    rcases hid with rfl | rfl
    · refine ⟨cfirst, ?_, hfirstUp, hfirstUn⟩
      simp only [World.setTimeout]
      rw [List.getElem?_set_ne (fun h => hne h.symm)]
      exact hcfirst
    · exact ⟨_, List.getElem?_set_self hlt, rfl, hunmatched⟩
  · intro i c hc hm
    rcases getElem?_set_flip _ _ _ _ _ c hcard hc with ⟨-, rfl⟩ | ⟨-, hold⟩
    · rfl
    · exact hinv.matched_flipped i c hold hm
  · simp only [resolutionsOutstanding, World.setTimeout, List.countP_append, hzero]
    split <;> simp [Callback.isResolution]
  · intro _
    refine ⟨first, cardId, by simp [World.setTimeout, hfirst], ?_⟩
    intro cb hcb hres
    simp only [World.setTimeout, List.mem_append, List.mem_singleton] at hcb
    rcases hcb with hold | rfl
    · rw [resolution_not_mem w.timers hzero cb hold] at hres
      exact absurd hres (by simp)
    · split
      · exact Or.inl rfl
      · exact Or.inr rfl
  · have := countP_set_same (fun c : Card => c.isMatched) w.gameState.cards cardId card
      { card with isFlipped := true } hcard rfl
    simp only [World.setTimeout]
    rw [this]
    exact hinv.matched_count
  · intro hmem
    simp only [World.setTimeout, List.mem_append, List.mem_singleton] at hmem
    rcases hmem with hold | hnew
    · exact hinv.complete_pending hold
    · split at hnew <;> exact Callback.noConfusion hnew
  · refine ⟨rest0 ++ [Effect.setTimeout (if card1.value = card2.value then
      Callback.handleMatch first cardId else Callback.handleNoMatch first cardId)
      (GAME_CONFIG level1).matchDelay], ?_, ?_, ?_⟩
    · simp [World.setTimeout, hlog]
    · have hneq : Effect.setTimeout (if card1.value = card2.value then
          Callback.handleMatch first cardId else Callback.handleNoMatch first cardId)
          (GAME_CONFIG level1).matchDelay ≠ Effect.setTimeout Callback.completeGame 500 := by
        split <;> simp
      rw [completionsScheduled_append, if_neg hneq]
      exact hcompl
    · rw [savedScores_append_setTimeout]
      exact hsaved

theorem inv_click (level : Level) (log0 : List Effect) (w w1 : World) (cardId : Nat)
    (hinv : GameInv level log0 w) (hclick : handleCardClick w cardId = some w1) :
    GameInv level log0 w1 := by
  rcases handleCardClick_some w w1 cardId hclick with rfl |
    ⟨hidle, card, hcard, hdown, hunmatched, -, ⟨hone, hcheck⟩ | ⟨hnone, rfl⟩⟩
  · exact hinv
  · exact inv_click_second level log0 w w1 cardId card hinv hcard hdown hunmatched hone hidle
      hcheck
  · exact inv_click_first level log0 w cardId card hinv hcard hunmatched hnone hidle

theorem fire_resolution_facts (level : Level) (log0 : List Effect) (w : World)
    (callback : Callback) (hinv : GameInv level log0 w) (hmem : callback ∈ w.timers)
    (hres : callback.isResolution = true) :
    w.gameState.isChecking = true ∧
      (w.timers.erase callback).countP Callback.isResolution = 0 ∧
      ∃ a b, w.gameState.flippedCards = [a, b] ∧ a ≠ b ∧
        (callback = Callback.handleMatch a b ∨ callback = Callback.handleNoMatch a b) := by
  have hchk : w.gameState.isChecking = true := by
    by_contra hno
    have hzero : w.timers.countP Callback.isResolution = 0 := by
      have := hinv.outstanding
      simpa [resolutionsOutstanding, hno] using this
    rw [resolution_not_mem w.timers hzero callback hmem] at hres
    exact absurd hres (by simp)
  have hone : w.timers.countP Callback.isResolution = 1 := by
    have := hinv.outstanding
    simpa [resolutionsOutstanding, hchk] using this
  have herase := countP_erase_add Callback.isResolution w.timers callback hmem
  rw [hres, hone] at herase
  obtain ⟨a, b, hfl, hall⟩ := hinv.checking hchk
  have hnodup := hinv.flipped_nodup
  rw [hfl] at hnodup
  refine ⟨hchk, by simpa using herase, a, b, hfl, ?_, hall callback hmem hres⟩
  intro hab
  subst hab
  simp at hnodup

theorem inv_fire_complete (level : Level) (log0 : List Effect) (w : World)
    (hinv : GameInv level log0 w) (hmem : Callback.completeGame ∈ w.timers) :
    GameInv level log0
      (completeGame { w with timers := w.timers.erase Callback.completeGame }) := by
  have herase := countP_erase_add Callback.isResolution w.timers Callback.completeGame hmem
  obtain ⟨rest0, hlog, hcompl, hsaved⟩ := hinv.log_eq
  refine
    { level_eq := hinv.level_eq
      cards_length := hinv.cards_length
      flipped_valid := hinv.flipped_valid
      flipped_nodup := hinv.flipped_nodup
      matched_flipped := hinv.matched_flipped
      outstanding := ?_
      checking := ?_
      idle := hinv.idle
      matched_count := hinv.matched_count
      score_eq := hinv.score_eq
      complete_pending := fun h => hinv.complete_pending (List.mem_of_mem_erase h)
      log_eq := ?_ }
  · have := hinv.outstanding
    simp only [resolutionsOutstanding] at this ⊢
    simp only [completeGame]
    rw [← this, ← herase]
    simp [Callback.isResolution]
  · intro h
    obtain ⟨a, b, hfl, hall⟩ := hinv.checking h
    exact ⟨a, b, hfl, fun cb hcb hres => hall cb (List.mem_of_mem_erase hcb) hres⟩
  · refine ⟨rest0 ++ [Effect.saveBestScore w.gameState.score], ?_, ?_, ?_⟩
    · simp [completeGame, hlog]
    · rw [completionsScheduled_append, if_neg (by simp)]
      exact hcompl
    · intro score hscore
      rw [savedScores_append_save, List.mem_append, List.mem_singleton] at hscore
      rcases hscore with hold | rfl
      · exact hsaved score hold
      · rw [hinv.score_eq, hinv.complete_pending hmem]

theorem inv_fire_match (level : Level) (log0 : List Effect) (w w1 : World) (a b : Nat)
    (hinv : GameInv level log0 w) (hmem : Callback.handleMatch a b ∈ w.timers)
    (hrun : handleMatch { w with timers := w.timers.erase (Callback.handleMatch a b) } a b =
      some w1) :
    GameInv level log0 w1 := by
  obtain ⟨hchk, hzero, a0, b0, hfl, hab, hcb⟩ :=
    fire_resolution_facts level log0 w _ hinv hmem rfl
  have hcb2 : a = a0 ∧ b = b0 := by
    rcases hcb with h | h
    · exact ⟨(Callback.handleMatch.inj h).1, (Callback.handleMatch.inj h).2⟩
    · exact Callback.noConfusion h
  obtain ⟨rfl, rfl⟩ := hcb2
  obtain ⟨card1, card2, level1, hc1, hc2, hl, hgs, hor⟩ := handleMatch_some _ _ _ _ hrun
  simp only at hc1 hc2 hl hgs hor
  have hlevel : level1 = level := Option.some.inj (hl.symm.trans hinv.level_eq)
  subst hlevel
  obtain ⟨ca, hca, haUp, haUn⟩ := hinv.flipped_valid a (by simp [hfl])
  obtain ⟨cb, hcbb, hbUp, hbUn⟩ := hinv.flipped_valid b (by simp [hfl])
  rw [hc1] at hca
  have hca2 := Option.some.inj hca
  subst hca2
  rw [List.getElem?_set_ne hab, hcbb] at hc2
  have hcb3 := Option.some.inj hc2
  subst hcb3
  have hset1 : (w.gameState.cards.set a { card1 with isMatched := true })[b]? = some cb := by
    rw [List.getElem?_set_ne hab, hcbb]
  have hcount : ((w.gameState.cards.set a { card1 with isMatched := true }).set b
      { cb with isMatched := true }).countP (fun c => c.isMatched) =
      2 * (w.gameState.matchedPairs + 1) := by
    rw [countP_set_new _ _ b cb _ hset1 hbUn rfl, countP_set_new _ _ a card1 _ hc1 haUn rfl,
      hinv.matched_count]
    omega
  have hbound : w.gameState.matchedPairs + 1 ≤ (GAME_CONFIG level1).pairs := by
    have hle := List.countP_le_length (fun c : Card => c.isMatched)
      (l := (w.gameState.cards.set a { card1 with isMatched := true }).set b
        { cb with isMatched := true })
    rw [hcount, List.length_set, List.length_set, hinv.cards_length] at hle
    omega
  obtain ⟨rest0, hlog, hcompl, hsaved⟩ := hinv.log_eq
  have hcompl0 : completionsScheduled rest0 = 0 := by
    rw [hcompl, if_neg (by omega)]
  refine
    { level_eq := by rw [hgs]; exact hinv.level_eq
      cards_length := by rw [hgs]; simpa using hinv.cards_length
      flipped_valid := by rw [hgs]; intro id hid; simp at hid
      flipped_nodup := by rw [hgs]; simp
      matched_flipped := ?_
      outstanding := ?_
      checking := by rw [hgs]; intro h; simp at h
      idle := by rw [hgs]; intro _; simp
      matched_count := by rw [hgs]; exact hcount
      score_eq := by rw [hgs]; simp only; rw [hinv.score_eq]; omega
      complete_pending := ?_
      log_eq := ?_ }
  · rw [hgs]
    intro i c hc hm
    rcases getElem?_set_flip _ _ _ _ _ c hset1 hc with ⟨-, rfl⟩ | ⟨-, hin⟩
    · exact hbUp
    · rcases getElem?_set_flip _ _ _ _ _ c hc1 hin with ⟨-, rfl⟩ | ⟨-, hold⟩
      · exact haUp
      · exact hinv.matched_flipped i c hold hm
  · simp only [resolutionsOutstanding, hgs]
    rcases hor with ⟨-, htimers, -⟩ | ⟨-, htimers, -⟩
    · rw [htimers, List.countP_append, hzero]
      simp [Callback.isResolution]
    · rw [htimers, hzero]
      simp
  · intro hpending
    rw [hgs]
    rcases hor with ⟨heq, -, -⟩ | ⟨-, htimers, -⟩
    · exact heq
    · rw [htimers] at hpending
      have := hinv.complete_pending (List.mem_of_mem_erase hpending)
      omega
  · rw [hgs]
    rcases hor with ⟨heq, -, hlog1⟩ | ⟨hne, -, hlog1⟩
    · refine ⟨rest0 ++ [Effect.setTimeout Callback.completeGame 500], ?_, ?_, ?_⟩
      · rw [hlog1, hlog, List.append_assoc]
      · rw [completionsScheduled_append, hcompl0]
        simp [heq]
      · rw [savedScores_append_setTimeout]
        exact hsaved
    · refine ⟨rest0, by rw [hlog1, hlog], ?_, hsaved⟩
      rw [hcompl0]
      simp [hne]

theorem inv_fire_noMatch (level : Level) (log0 : List Effect) (w w1 : World) (a b : Nat)
    (hinv : GameInv level log0 w) (hmem : Callback.handleNoMatch a b ∈ w.timers)
    (hrun : handleNoMatch { w with timers := w.timers.erase (Callback.handleNoMatch a b) } a b =
      some w1) :
    GameInv level log0 w1 := by
  obtain ⟨hchk, hzero, a0, b0, hfl, hab, hcb⟩ :=
    fire_resolution_facts level log0 w _ hinv hmem rfl
  have hcb2 : a = a0 ∧ b = b0 := by
    rcases hcb with h | h
    · exact Callback.noConfusion h
    · exact ⟨(Callback.handleNoMatch.inj h).1, (Callback.handleNoMatch.inj h).2⟩
  obtain ⟨rfl, rfl⟩ := hcb2
  obtain ⟨card1, card2, level1, hc1, hc2, hl, hw1⟩ := handleNoMatch_some _ _ _ _ hrun
  simp only at hc1 hc2 hl hw1
  obtain ⟨ca, hca, haUp, haUn⟩ := hinv.flipped_valid a (by simp [hfl])
  obtain ⟨cb, hcbb, hbUp, hbUn⟩ := hinv.flipped_valid b (by simp [hfl])
  rw [hc1] at hca
  have hca2 := Option.some.inj hca
  subst hca2
  rw [List.getElem?_set_ne hab, hcbb] at hc2
  have hcb3 := Option.some.inj hc2
  subst hcb3
  have hset1 : (w.gameState.cards.set a { card1 with isFlipped := false })[b]? = some cb := by
    rw [List.getElem?_set_ne hab, hcbb]
  subst hw1
  refine
    { level_eq := hinv.level_eq
      cards_length := by simpa using hinv.cards_length
      flipped_valid := by intro id hid; simp at hid
      flipped_nodup := by simp
      matched_flipped := ?_
      outstanding := by simp [resolutionsOutstanding, hzero]
      checking := by intro h; simp at h
      idle := by intro _; simp
      matched_count := ?_
      score_eq := hinv.score_eq
      complete_pending := fun h => hinv.complete_pending (List.mem_of_mem_erase h)
      log_eq := hinv.log_eq }
  · intro i c hc hm
    rcases getElem?_set_flip _ _ _ _ _ c hset1 hc with ⟨-, rfl⟩ | ⟨-, hin⟩
    · rw [show ({ cb with isFlipped := false } : Card).isMatched = cb.isMatched from rfl,
        hbUn] at hm
      exact absurd hm (by simp)
    · rcases getElem?_set_flip _ _ _ _ _ c hc1 hin with ⟨-, rfl⟩ | ⟨-, hold⟩
      · rw [show ({ card1 with isFlipped := false } : Card).isMatched = card1.isMatched
          from rfl, haUn] at hm
        exact absurd hm (by simp)
      · exact hinv.matched_flipped i c hold hm
  · simp only
    rw [countP_set_same (fun c : Card => c.isMatched) _ b cb { cb with isFlipped := false }
        hset1 rfl,
      countP_set_same (fun c : Card => c.isMatched) _ a card1 { card1 with isFlipped := false }
        hc1 rfl]
    exact hinv.matched_count

theorem inv_step (level : Level) (log0 : List Effect) (w w1 : World) (input : Input)
    (hinv : GameInv level log0 w) (hstep : step w input = some w1) : GameInv level log0 w1 := by
  cases input with
  | click cardId => exact inv_click level log0 w w1 cardId hinv hstep
  | fire callback =>
    simp only [step] at hstep
    split at hstep
    · rename_i hmem
      cases callback with
      | handleMatch a b => exact inv_fire_match level log0 w w1 a b hinv hmem hstep
      | handleNoMatch a b => exact inv_fire_noMatch level log0 w w1 a b hinv hmem hstep
      | completeGame =>
        simp only [runCallback] at hstep
        rw [← Option.some.inj hstep]
        exact inv_fire_complete level log0 w hinv hmem
    · exact absurd hstep (by simp)

theorem inv_run (level : Level) (log0 : List Effect) (inputs : List Input) (w w1 : World)
    (hinv : GameInv level log0 w) (hrun : run w inputs = some w1) : GameInv level log0 w1 := by
  induction inputs generalizing w with
  | nil =>
    simp only [run] at hrun
    rw [← Option.some.inj hrun]
    exact hinv
  | cons input inputs ih =>
    simp only [run] at hrun
    split at hrun
    · exact absurd hrun (by simp)
    · rename_i w2 hstep
      exact ih w2 (inv_step level log0 w w2 input hinv hstep) hrun

/-! ## What a step leaves alone -/

theorem MatchedPreserved.refl (cards : List Card) : MatchedPreserved cards cards :=
  fun _ card hcard hm => ⟨card, hcard, hm⟩

theorem MatchedPreserved.trans {cards cards1 cards2 : List Card}
    (h1 : MatchedPreserved cards cards1) (h2 : MatchedPreserved cards1 cards2) :
    MatchedPreserved cards cards2 := by
  intro i card hcard hm
  obtain ⟨card1, hcard1, hm1⟩ := h1 i card hcard hm
  exact h2 i card1 hcard1 hm1

theorem MatchedPreserved.set (cards : List Card) (cardId : Nat) (old new : Card)
    (hold : cards[cardId]? = some old) (hnew : old.isMatched = true → new.isMatched = true) :
    MatchedPreserved cards (cards.set cardId new) := by
  intro i card hcard hm
  by_cases hi : cardId = i
  · subst hi
    rw [hold] at hcard
    rw [← Option.some.inj hcard] at hm
    exact ⟨new, List.getElem?_set_self (List.getElem?_eq_some_iff.mp hold).1, hnew hm⟩
  · exact ⟨card, by rw [List.getElem?_set_ne hi]; exact hcard, hm⟩

theorem stepFrame_click (w w1 : World) (cardId : Nat)
    (hclick : handleCardClick w cardId = some w1) : StepFrame w w1 (Input.click cardId) := by
  rcases handleCardClick_some w w1 cardId hclick with rfl |
    ⟨-, card, hcard, -, -, -, ⟨-, hcheck⟩ | ⟨-, rfl⟩⟩
  · exact ⟨rfl, Nat.le_refl _, rfl, rfl, MatchedPreserved.refl _, Or.inl rfl⟩
  · obtain ⟨a, b, rest, card1, card2, level1, -, -, -, -, rfl⟩ := checkMatch_some _ _ hcheck
    exact ⟨rfl, Nat.le_succ _, rfl, rfl,
      MatchedPreserved.set _ _ card _ hcard (fun h => h), Or.inl rfl⟩
  · exact ⟨rfl, Nat.le_refl _, rfl, rfl,
      MatchedPreserved.set _ _ card _ hcard (fun h => h), Or.inl rfl⟩

theorem stepFrame_fire (w w1 : World) (callback : Callback)
    (hfire : step w (Input.fire callback) = some w1) :
    StepFrame w w1 (Input.fire callback) := by
  simp only [step] at hfire
  split at hfire
  · cases callback with
    | handleMatch a b =>
      obtain ⟨card1, card2, level1, hc1, hc2, hl, hgs, -⟩ := handleMatch_some _ _ _ _ hfire
      simp only at hc1 hc2 hl hgs
      refine ⟨by rw [hgs], by rw [hgs], by rw [hgs]; rfl, by rw [hgs]; rfl, ?_, Or.inl (by rw [hgs])⟩
      rw [hgs]
      exact (MatchedPreserved.set _ _ card1 _ hc1 (fun _ => rfl)).trans
        (MatchedPreserved.set _ _ card2 _ hc2 (fun _ => rfl))
    | handleNoMatch a b =>
      obtain ⟨card1, card2, level1, hc1, hc2, hl, rfl⟩ := handleNoMatch_some _ _ _ _ hfire
      simp only at hc1 hc2 hl
      refine ⟨rfl, Nat.le_refl _, rfl, rfl, ?_, Or.inr ⟨level1, hl, rfl, rfl⟩⟩
      exact (MatchedPreserved.set _ a card1 { card1 with isFlipped := false } hc1
        (fun h => h)).trans
        (MatchedPreserved.set _ b card2 { card2 with isFlipped := false } hc2 (fun h => h))
    | completeGame =>
      simp only [runCallback] at hfire
      rw [← Option.some.inj hfire]
      exact ⟨rfl, Nat.le_refl _, rfl, rfl, MatchedPreserved.refl _, Or.inl rfl⟩
  · exact absurd hfire (by simp)

theorem stepFrame (w w1 : World) (input : Input) (hstep : step w input = some w1) :
    StepFrame w w1 input := by
  cases input with
  | click cardId => exact stepFrame_click w w1 cardId hstep
  | fire callback => exact stepFrame_fire w w1 callback hstep

theorem starsFor_antitone (pairs m m1 : Nat) (h : m ≤ m1) :
    starsFor pairs m1 ≤ starsFor pairs m := by
  unfold starsFor
  split_ifs <;> omega

theorem starsFor_pos (pairs m : Nat) : 1 ≤ starsFor pairs m ∧ starsFor pairs m ≤ 3 := by
  unfold starsFor
  split_ifs <;> omega

theorem starsInv_start (rnd : Nat → Nat) (level : Level) (w0 w1 : World)
    (hstart : startGame rnd level w0 = some w1) : StarsInv level w1 := by
  rw [startGame_eq] at hstart
  rw [← Option.some.inj hstart]
  exact ⟨rfl, (starsFor_pos _ _).2, Nat.le_refl _⟩

theorem starsInv_step (level : Level) (w w1 : World) (input : Input)
    (hinv : StarsInv level w) (hstep : step w input = some w1) :
    StarsInv level w1 ∧ w1.gameState.stars ≤ w.gameState.stars := by
  have hframe := stepFrame w w1 input hstep
  have hlevel : w1.gameState.currentLevel = some level := hframe.level_eq.trans hinv.level_eq
  have hanti := starsFor_antitone (GAME_CONFIG level).pairs _ _ hframe.moves_le
  rcases hframe.stars with hsame | ⟨level1, hl, hmoves, hstars⟩
  · exact ⟨⟨hlevel, by rw [hsame]; exact hanti.trans hinv.stars_ge, by rw [hsame]; exact hinv.stars_le⟩,
      by rw [hsame]⟩
  · have hl1 : level1 = level := Option.some.inj (hl.symm.trans hinv.level_eq)
    subst hl1
    exact ⟨⟨hlevel, by rw [hstars, hmoves], by rw [hstars]; exact (starsFor_pos _ _).2⟩,
      by rw [hstars]; exact hinv.stars_ge⟩

theorem starsInv_run (level : Level) (inputs : List Input) (w w1 : World)
    (hinv : StarsInv level w) (hrun : run w inputs = some w1) :
    StarsInv level w1 ∧ w1.gameState.stars ≤ w.gameState.stars := by
  induction inputs generalizing w with
  | nil =>
    simp only [run] at hrun
    rw [← Option.some.inj hrun]
    exact ⟨hinv, Nat.le_refl _⟩
  | cons input inputs ih =>
    simp only [run] at hrun
    split at hrun
    · exact absurd hrun (by simp)
    · rename_i w2 hstep
      obtain ⟨hinv2, hle2⟩ := starsInv_step level w w2 input hinv hstep
      obtain ⟨hinv1, hle1⟩ := ih w2 hinv2 hrun
      exact ⟨hinv1, hle1.trans hle2⟩

theorem matchResolutions_cons (input : Input) (inputs : List Input) :
    matchResolutions (input :: inputs) =
      matchResolutions inputs + (if input.isMatchResolution then 1 else 0) := by
  simp [matchResolutions, List.countP_cons]

theorem run_frame (inputs : List Input) (w w1 : World) (hrun : run w inputs = some w1) :
    w1.gameState.matchedPairs = w.gameState.matchedPairs + matchResolutions inputs ∧
      w1.gameState.score = w.gameState.score + 10 * matchResolutions inputs ∧
      MatchedPreserved w.gameState.cards w1.gameState.cards := by
  induction inputs generalizing w with
  | nil =>
    simp only [run] at hrun
    rw [← Option.some.inj hrun]
    exact ⟨rfl, rfl, MatchedPreserved.refl _⟩
  | cons input inputs ih =>
    simp only [run] at hrun
    split at hrun
    · exact absurd hrun (by simp)
    · rename_i w2 hstep
      have hframe := stepFrame w w2 input hstep
      obtain ⟨h1, h2, h3⟩ := ih w2 hrun
      refine ⟨?_, ?_, hframe.matched.trans h3⟩
      · rw [h1, hframe.matchedPairs_eq, matchResolutions_cons]
        omega
      · rw [h2, hframe.score_eq, matchResolutions_cons]
        split <;> omega

/-! ## The game as a whole -/

theorem completionsScheduled_append_log (log rest : List Effect) :
    completionsScheduled (log ++ rest) = completionsScheduled log + completionsScheduled rest := by
  simp [completionsScheduled, List.count_append]

theorem inv_matchedPairs_le (level : Level) (log0 : List Effect) (w : World)
    (hinv : GameInv level log0 w) : w.gameState.matchedPairs ≤ (GAME_CONFIG level).pairs := by
  have hle := List.countP_le_length (fun c : Card => c.isMatched) (l := w.gameState.cards)
  rw [hinv.matched_count, hinv.cards_length] at hle
  omega

theorem startGame_counters (rnd : Nat → Nat) (level : Level) (w0 w1 : World)
    (hstart : startGame rnd level w0 = some w1) :
    w1.gameState.matchedPairs = 0 ∧ w1.gameState.score = 0 ∧ w1.gameState.moves = 0 ∧
      w1.gameState.stars = 3 := by
  rw [startGame_eq] at hstart
  rw [← Option.some.inj hstart]
  exact ⟨rfl, rfl, rfl, rfl⟩

theorem click_isSome (level : Level) (log0 : List Effect) (w : World) (cardId : Nat)
    (hinv : GameInv level log0 w) (hvalid : cardId < w.gameState.cards.length) :
    ∃ w1, handleCardClick w cardId = some w1 := by
  have hcard : w.gameState.cards[cardId]? = some w.gameState.cards[cardId] :=
    List.getElem?_eq_getElem hvalid
  by_cases hchk : w.gameState.isChecking = true
  · exact ⟨w, handleCardClick_noop w cardId _ hcard (Or.inl hchk)⟩
  · have hidle : w.gameState.isChecking = false := by simpa using hchk
    by_cases hup : w.gameState.cards[cardId].isFlipped = true
    · exact ⟨w, handleCardClick_noop w cardId _ hcard (Or.inr (Or.inl hup))⟩
    · by_cases hm : w.gameState.cards[cardId].isMatched = true
      · exact ⟨w, handleCardClick_noop w cardId _ hcard (Or.inr (Or.inr hm))⟩
      · have hdown : w.gameState.cards[cardId].isFlipped = false := by simpa using hup
        have hunmatched : w.gameState.cards[cardId].isMatched = false := by simpa using hm
        have hlen := hinv.idle hidle
        by_cases hnone : w.gameState.flippedCards.length = 0
        · exact ⟨_, handleCardClick_first w cardId _ hidle hcard hdown hunmatched hnone⟩
        · have hone : w.gameState.flippedCards.length = 1 := by omega
          obtain ⟨first, hfirst⟩ := List.length_eq_one.mp hone
          obtain ⟨cfirst, hcfirst, -, -⟩ := hinv.flipped_valid first (by simp [hfirst])
          have hfirstLt := (List.getElem?_eq_some_iff.mp hcfirst).1
          rw [handleCardClick_second w cardId _ hidle hcard hdown hunmatched hone]
          obtain ⟨c1, h1⟩ : ∃ c1, (w.gameState.cards.set cardId
              { w.gameState.cards[cardId] with isFlipped := true })[first]? = some c1 :=
            ⟨_, List.getElem?_eq_getElem (by simpa using hfirstLt)⟩
          have h2 : (w.gameState.cards.set cardId
              { w.gameState.cards[cardId] with isFlipped := true })[cardId]? =
              some { w.gameState.cards[cardId] with isFlipped := true } :=
            List.getElem?_set_self hvalid
          simp only [checkMatch, hfirst, List.singleton_append, h1, h2, hinv.level_eq, configOf,
            Option.map_some']
          split <;> exact ⟨_, rfl⟩

theorem fire_isSome (level : Level) (log0 : List Effect) (w : World) (callback : Callback)
    (hinv : GameInv level log0 w) (hmem : callback ∈ w.timers) :
    ∃ w1, step w (Input.fire callback) = some w1 := by
  rw [step_fire_mem w callback hmem]
  cases callback with
  | completeGame => exact ⟨_, rfl⟩
  | handleMatch a b =>
    obtain ⟨-, -, a0, b0, hfl, -, hcb⟩ := fire_resolution_facts level log0 w _ hinv hmem rfl
    have hab : a = a0 ∧ b = b0 := by
      rcases hcb with h | h
      · exact ⟨(Callback.handleMatch.inj h).1, (Callback.handleMatch.inj h).2⟩
      · exact Callback.noConfusion h
    obtain ⟨rfl, rfl⟩ := hab
    obtain ⟨ca, hca, -, -⟩ := hinv.flipped_valid a (by simp [hfl])
    obtain ⟨cb, hcb1, -, -⟩ := hinv.flipped_valid b (by simp [hfl])
    exact handleMatch_isSome _ a b level (List.getElem?_eq_some_iff.mp hca).1
      (List.getElem?_eq_some_iff.mp hcb1).1 hinv.level_eq
  | handleNoMatch a b =>
    obtain ⟨-, -, a0, b0, hfl, -, hcb⟩ := fire_resolution_facts level log0 w _ hinv hmem rfl
    have hab : a = a0 ∧ b = b0 := by
      rcases hcb with h | h
      · exact Callback.noConfusion h
      · exact ⟨(Callback.handleNoMatch.inj h).1, (Callback.handleNoMatch.inj h).2⟩
    obtain ⟨rfl, rfl⟩ := hab
    obtain ⟨ca, hca, -, -⟩ := hinv.flipped_valid a (by simp [hfl])
    obtain ⟨cb, hcb1, -, -⟩ := hinv.flipped_valid b (by simp [hfl])
    exact handleNoMatch_isSome _ a b level (List.getElem?_eq_some_iff.mp hca).1
      (List.getElem?_eq_some_iff.mp hcb1).1 hinv.level_eq


/-- C6. Completion triggers exactly when the matched-pair count reaches the pair count of the
level. In a game started by `startGame(level)` with no timer pending, after any inputs:
`matchedPairs` is the number of match resolutions so far and never exceeds `pairs`;
`completeGame` has been scheduled once if that number is `pairs` and not at all otherwise; and
a further step schedules `completeGame` exactly when it is a match resolution that brings
`matchedPairs` to `pairs`, so never a click or a no-match resolution. -/
theorem completion_scheduled_once (rnd : Nat → Nat) (level : Level) (w0 w1 w : World)
    (inputs : List Input) (hquiet : w0.timers = [])
    (hstart : startGame rnd level w0 = some w1) (hrun : run w1 inputs = some w) :
    w.gameState.matchedPairs = matchResolutions inputs ∧
      matchResolutions inputs ≤ (GAME_CONFIG level).pairs ∧
      completionsScheduled w.log = completionsScheduled w1.log +
        (if matchResolutions inputs = (GAME_CONFIG level).pairs then 1 else 0) ∧
      ∀ (input : Input) (w2 : World), step w input = some w2 →
        completionsScheduled w2.log = completionsScheduled w.log +
          (if input.isMatchResolution = true ∧
            w2.gameState.matchedPairs = (GAME_CONFIG level).pairs then 1 else 0) := by
  have hinv1 := startGame_inv rnd level w0 w1 hquiet hstart
  have hinv := inv_run level w1.log inputs w1 w hinv1 hrun
  have hcount := (run_frame inputs w1 w hrun).1
  rw [(startGame_counters rnd level w0 w1 hstart).1, Nat.zero_add] at hcount
  have hle := inv_matchedPairs_le level w1.log w hinv
  obtain ⟨rest, hlog, hcompl, -⟩ := hinv.log_eq
  refine ⟨hcount, by rw [← hcount]; exact hle, ?_, ?_⟩
  · rw [hlog, completionsScheduled_append_log, hcompl, hcount]
  · intro input w2 hstep
    have hinv2 := inv_step level w1.log w w2 input hinv hstep
    have hle2 := inv_matchedPairs_le level w1.log w2 hinv2
    have hmp := (stepFrame w w2 input hstep).matchedPairs_eq
    obtain ⟨rest2, hlog2, hcompl2, -⟩ := hinv2.log_eq
    rw [hlog2, hlog, completionsScheduled_append_log, completionsScheduled_append_log, hcompl,
      hcompl2]
    by_cases hres : input.isMatchResolution = true
    · rw [if_pos hres] at hmp
      rw [if_neg (by omega : ¬w.gameState.matchedPairs = (GAME_CONFIG level).pairs)]
      simp only [hres, true_and, Nat.add_zero]
    · rw [if_neg hres, Nat.add_zero] at hmp
      rw [hmp]
      simp [hres]

theorem completion_scheduled_once_witness :
    initialWorld.timers = [] ∧
      startGame sampleRnd Level.easy initialWorld = some sampleStart ∧
      run sampleStart sampleTurns = some sampleMatched ∧
      sampleMatched.gameState.matchedPairs = matchResolutions sampleTurns ∧
      completionsScheduled sampleMatched.log = completionsScheduled sampleStart.log +
        (if matchResolutions sampleTurns = (GAME_CONFIG Level.easy).pairs then 1 else 0) :=
  ⟨rfl, rfl, rfl,
    (completion_scheduled_once sampleRnd Level.easy initialWorld sampleStart sampleMatched
      sampleTurns rfl rfl rfl).1,
    (completion_scheduled_once sampleRnd Level.easy initialWorld sampleStart sampleMatched
      sampleTurns rfl rfl rfl).2.2.1⟩

/-- C7. The star rating is bounded and non-increasing within one game: in every state
reached from `startGame` by clicks and timer firings `stars` is 1, 2 or 3; it is never larger
than in an earlier state of the same game; and a no-match resolution sets it to 1 when
`moves > 2 × pairs`, to 2 when `moves > 1.5 × pairs`, and to 3 otherwise. -/
theorem stars_non_increasing (rnd : Nat → Nat) (level : Level) (w0 w1 w w2 : World)
    (inputs later : List Input) (hstart : startGame rnd level w0 = some w1)
    (hrun : run w1 inputs = some w) (hlater : run w later = some w2) :
    (w2.gameState.stars = 1 ∨ w2.gameState.stars = 2 ∨ w2.gameState.stars = 3) ∧
      w2.gameState.stars ≤ w.gameState.stars ∧
      ∀ (a b : Nat) (w3 : World),
        step w2 (Input.fire (Callback.handleNoMatch a b)) = some w3 →
          w3.gameState.stars =
            (if w2.gameState.moves > (GAME_CONFIG level).pairs * 2 then 1
              else if w2.gameState.moves * 2 > (GAME_CONFIG level).pairs * 3 then 2 else 3) ∧
          w3.gameState.stars ≤ w2.gameState.stars := by
  have hinv1 := starsInv_start rnd level w0 w1 hstart
  obtain ⟨hinv, -⟩ := starsInv_run level inputs w1 w hinv1 hrun
  obtain ⟨hinv2, hle⟩ := starsInv_run level later w w2 hinv hlater
  have hpos := starsFor_pos (GAME_CONFIG level).pairs w2.gameState.moves
  have hge := hinv2.stars_ge
  have hle3 := hinv2.stars_le
  refine ⟨by omega, hle, ?_⟩
  intro a b w3 hstep
  refine ⟨?_, (starsInv_step level w2 w3 _ hinv2 hstep).2⟩
  simp only [step] at hstep
  split at hstep
  · obtain ⟨card1, card2, level1, -, -, hl, rfl⟩ := handleNoMatch_some _ _ _ _ hstep
    have hl1 : level1 = level := Option.some.inj (hl.symm.trans hinv2.level_eq)
    subst hl1
    rfl
  · exact absurd hstep (by simp)

theorem stars_non_increasing_witness :
    startGame sampleRnd Level.easy initialWorld = some sampleStart ∧
      run sampleStart [Input.click 0] = some sampleOneUp ∧
      run sampleOneUp [Input.click 6] = some sampleResolving ∧
      sampleResolving.gameState.stars ≤ sampleOneUp.gameState.stars :=
  ⟨rfl, rfl, rfl,
    (stars_non_increasing sampleRnd Level.easy initialWorld sampleStart sampleOneUp
      sampleResolving [Input.click 0] [Input.click 6] rfl rfl rfl).2.1⟩

/-- C9. Matched cards stay matched and face up: in every state reached from a `startGame`
with no timer pending, by clicks and timer firings, every matched card is face up; and a card
that is matched is still matched and face up in every later state of that game. -/
theorem matched_cards_stay (rnd : Nat → Nat) (level : Level) (w0 w1 w w2 : World)
    (inputs later : List Input) (hquiet : w0.timers = [])
    (hstart : startGame rnd level w0 = some w1) (hrun : run w1 inputs = some w)
    (hlater : run w later = some w2) :
    (∀ (i : Nat) (card : Card), w.gameState.cards[i]? = some card →
        card.isMatched = true → card.isFlipped = true) ∧
      ∀ (i : Nat) (card : Card), w.gameState.cards[i]? = some card → card.isMatched = true →
        ∃ card2, w2.gameState.cards[i]? = some card2 ∧ card2.isMatched = true ∧
          card2.isFlipped = true := by
  have hinv1 := startGame_inv rnd level w0 w1 hquiet hstart
  have hinv := inv_run level w1.log inputs w1 w hinv1 hrun
  have hinv2 := inv_run level w1.log later w w2 hinv hlater
  refine ⟨hinv.matched_flipped, ?_⟩
  intro i card hcard hm
  obtain ⟨card2, hcard2, hm2⟩ := (run_frame later w w2 hlater).2.2 i card hcard hm
  exact ⟨card2, hcard2, hm2, hinv2.matched_flipped i card2 hcard2 hm2⟩

theorem matched_cards_stay_witness :
    initialWorld.timers = [] ∧
      startGame sampleRnd Level.easy initialWorld = some sampleStart ∧
      run sampleStart sampleTurns = some sampleMatched ∧
      ∀ (i : Nat) (card : Card), sampleMatched.gameState.cards[i]? = some card →
        card.isMatched = true → card.isFlipped = true :=
  ⟨rfl, rfl, rfl,
    (matched_cards_stay sampleRnd Level.easy initialWorld sampleStart sampleMatched
      sampleMatched sampleTurns [] rfl rfl rfl rfl).1⟩

/-- C12. The score depends only on the number of matches: in every state reached from
`startGame` by clicks and timer firings `score = 10 × matchedPairs`; and when the game was
started with no timer pending, every score passed to `saveBestScore` since the start is
`10 × pairs` for the level played (60, 120 or 200), and so is the score that `completeGame`
passes when its timer fires. -/
theorem score_is_ten_per_pair (rnd : Nat → Nat) (level : Level) (w0 w1 w : World)
    (inputs : List Input) (hstart : startGame rnd level w0 = some w1)
    (hrun : run w1 inputs = some w) :
    w.gameState.score = 10 * w.gameState.matchedPairs ∧
      (w0.timers = [] →
        (∀ score ∈ savedScores (w.log.drop w1.log.length),
          score = 10 * (GAME_CONFIG level).pairs) ∧
        ∀ w2 : World, step w (Input.fire Callback.completeGame) = some w2 →
          w2.log = w.log ++ [Effect.saveBestScore (10 * (GAME_CONFIG level).pairs)]) ∧
      10 * (GAME_CONFIG Level.easy).pairs = 60 ∧ 10 * (GAME_CONFIG Level.medium).pairs = 120 ∧
      10 * (GAME_CONFIG Level.hard).pairs = 200 := by
  obtain ⟨hmp, hscore, -⟩ := run_frame inputs w1 w hrun
  obtain ⟨hmp0, hscore0, -, -⟩ := startGame_counters rnd level w0 w1 hstart
  refine ⟨by rw [hmp, hscore, hmp0, hscore0]; omega, ?_, rfl, rfl, rfl⟩
  intro hquiet
  have hinv1 := startGame_inv rnd level w0 w1 hquiet hstart
  have hinv := inv_run level w1.log inputs w1 w hinv1 hrun
  obtain ⟨rest, hlog, -, hsaved⟩ := hinv.log_eq
  refine ⟨by rw [hlog, List.drop_left]; exact hsaved, ?_⟩
  intro w2 hstep
  simp only [step] at hstep
  split at hstep
  · rename_i hmem
    simp only [runCallback] at hstep
    rw [← Option.some.inj hstep]
    simp only [completeGame]
    rw [hinv.score_eq, hinv.complete_pending hmem]
  · exact absurd hstep (by simp)

theorem score_is_ten_per_pair_witness :
    startGame sampleRnd Level.easy initialWorld = some sampleStart ∧
      run sampleStart sampleTurns = some sampleMatched ∧
      sampleMatched.gameState.score = 10 * sampleMatched.gameState.matchedPairs ∧
      ∀ w2 : World, step sampleMatched (Input.fire Callback.completeGame) = some w2 →
        w2.log = sampleMatched.log ++
          [Effect.saveBestScore (10 * (GAME_CONFIG Level.easy).pairs)] :=
  ⟨rfl, rfl,
    (score_is_ten_per_pair sampleRnd Level.easy initialWorld sampleStart sampleMatched
      sampleTurns rfl rfl).1,
    ((score_is_ten_per_pair sampleRnd Level.easy initialWorld sampleStart sampleMatched
      sampleTurns rfl rfl).2.1 rfl).2⟩

/-! ## Restarts and the timers of an earlier game -/

theorem outstanding_click (w w1 : World) (cardId : Nat)
    (hinv : resolutionsOutstanding w = if w.gameState.isChecking then 1 else 0)
    (hclick : handleCardClick w cardId = some w1) :
    (resolutionsOutstanding w1 = if w1.gameState.isChecking then 1 else 0) ∧
      ∀ cb ∈ w.timers, cb ∈ w1.timers := by
  rcases handleCardClick_some w w1 cardId hclick with rfl |
    ⟨hidle, card, -, -, -, -, ⟨-, hcheck⟩ | ⟨-, rfl⟩⟩
  · exact ⟨hinv, fun _ h => h⟩
  · obtain ⟨a, b, rest, card1, card2, level1, -, -, -, -, rfl⟩ := checkMatch_some _ _ hcheck
    have hzero : w.timers.countP Callback.isResolution = 0 := by
      simpa [resolutionsOutstanding, hidle] using hinv
    refine ⟨?_, fun cb h => by simp [World.setTimeout, h]⟩
    simp only [resolutionsOutstanding, World.setTimeout, List.countP_append, hzero]
    split <;> simp [Callback.isResolution]
  · exact ⟨hinv, fun _ h => h⟩

theorem outstanding_fire (w w1 : World) (callback : Callback)
    (hinv : resolutionsOutstanding w = if w.gameState.isChecking then 1 else 0)
    (hfire : step w (Input.fire callback) = some w1) :
    (resolutionsOutstanding w1 = if w1.gameState.isChecking then 1 else 0) ∧
      ∀ cb ∈ w.timers, cb ∈ w1.timers ∨ cb = callback := by
  simp only [step] at hfire
  split at hfire
  · rename_i hmem
    have herase := countP_erase_add Callback.isResolution w.timers callback hmem
    have hkeep : ∀ cb ∈ w.timers, cb ∈ w.timers.erase callback ∨ cb = callback := by
      intro cb hcb
      by_cases h : cb = callback
      · exact Or.inr h
      · exact Or.inl ((List.mem_erase_of_ne h).mpr hcb)
    have hresolved : callback.isResolution = true →
        (w.timers.erase callback).countP Callback.isResolution = 0 := by
      intro hres
      rw [hres] at herase
      simp only [resolutionsOutstanding] at hinv
      split at hinv <;> simp only [if_true] at herase <;> omega
    cases callback with
    | handleMatch a b =>
      obtain ⟨card1, card2, level1, -, -, -, hgs, hor⟩ := handleMatch_some _ _ _ _ hfire
      simp only at hgs hor
      have hzero := hresolved rfl
      rcases hor with ⟨-, htimers, -⟩ | ⟨-, htimers, -⟩
      · refine ⟨?_, ?_⟩
        · simp [resolutionsOutstanding, hgs, htimers, hzero, Callback.isResolution]
        · intro cb hcb
          rcases hkeep cb hcb with h | h
          · exact Or.inl (by rw [htimers]; exact List.mem_append_left _ h)
          · exact Or.inr h
      · refine ⟨?_, ?_⟩
        · simp [resolutionsOutstanding, hgs, htimers, hzero]
        · intro cb hcb
          rcases hkeep cb hcb with h | h
          · exact Or.inl (by rw [htimers]; exact h)
          · exact Or.inr h
    | handleNoMatch a b =>
      obtain ⟨card1, card2, level1, -, -, -, rfl⟩ := handleNoMatch_some _ _ _ _ hfire
      have hzero := hresolved rfl
      exact ⟨by simp [resolutionsOutstanding, hzero], hkeep⟩
    | completeGame =>
      simp only [runCallback] at hfire
      rw [← Option.some.inj hfire]
      refine ⟨?_, hkeep⟩
      simp only [resolutionsOutstanding, completeGame] at hinv ⊢
      rw [← hinv, ← herase]
      simp [Callback.isResolution]
  · exact absurd hfire (by simp)

theorem outstanding_stepEvent (w w1 : World) (event : Event)
    (hinv : resolutionsOutstanding w = if w.gameState.isChecking then 1 else 0)
    (hguard : (match event with
      | .input _ => true
      | _ => resolutionsOutstanding w == 0) = true)
    (hstep : stepEvent w event = some w1) :
    (resolutionsOutstanding w1 = if w1.gameState.isChecking then 1 else 0) ∧
      ∀ cb ∈ w.timers, cb ∈ w1.timers ∨ event = Event.input (Input.fire cb) := by
  cases event with
  | input input =>
    cases input with
    | click cardId =>
      obtain ⟨h1, h2⟩ := outstanding_click w w1 cardId hinv hstep
      exact ⟨h1, fun cb hcb => Or.inl (h2 cb hcb)⟩
    | fire callback =>
      obtain ⟨h1, h2⟩ := outstanding_fire w w1 callback hinv hstep
      refine ⟨h1, fun cb hcb => ?_⟩
      rcases h2 cb hcb with h | h
      · exact Or.inl h
      · exact Or.inr (by rw [h])
  | startGame rnd level =>
    simp only [stepEvent, startGame_eq] at hstep
    rw [← Option.some.inj hstep]
    have hzero : resolutionsOutstanding w = 0 := by simpa using hguard
    exact ⟨by simpa [resolutionsOutstanding, createBoard, resetGameState] using hzero,
      fun cb hcb => Or.inl hcb⟩
  | restartGame rnd =>
    simp only [stepEvent, restartGame] at hstep
    split at hstep
    · rw [startGame_eq] at hstep
      rw [← Option.some.inj hstep]
      have hzero : resolutionsOutstanding w = 0 := by simpa using hguard
      exact ⟨by simpa [resolutionsOutstanding, createBoard, resetGameState] using hzero,
        fun cb hcb => Or.inl hcb⟩
    · rw [← Option.some.inj hstep]
      exact ⟨hinv, fun cb hcb => Or.inl hcb⟩

theorem outstanding_runEvents (events : List Event) (w w1 : World)
    (hinv : resolutionsOutstanding w = if w.gameState.isChecking then 1 else 0)
    (hrun : runEvents w events = some w1) (hidle : restartsWhenIdle w events = true) :
    resolutionsOutstanding w1 = if w1.gameState.isChecking then 1 else 0 := by
  induction events generalizing w with
  | nil =>
    simp only [runEvents] at hrun
    rw [← Option.some.inj hrun]
    exact hinv
  | cons event events ih =>
    simp only [runEvents] at hrun
    simp only [restartsWhenIdle, Bool.and_eq_true] at hidle
    split at hrun
    · exact absurd hrun (by simp)
    · rename_i w2 hstep
      have hrest : restartsWhenIdle w2 events = true := by
        have := hidle.2
        rw [hstep] at this
        exact this
      exact ih w2 (outstanding_stepEvent w w2 event hinv hidle.1 hstep).1 hrun hrest

/-- C11, as stated, fails. The easy game is started, two cards are turned up, and the game is
restarted while their resolution is pending: `startGame` resets `isChecking` and cancels
nothing, so two more clicks schedule a second resolution and two resolution timers are
outstanding. -/
theorem restart_leaves_two_resolutions :
    (runEvents initialWorld restartWhileResolving).map resolutionsOutstanding = some 2 := by
  decide

/-- C11, amended. In every state reached from the freshly loaded page by any interleaving of
`startGame`, `restartGame`, clicks and timer firings in which `startGame` and `restartGame`
happen only while no resolution timer is outstanding, at most one resolution timer is
outstanding: exactly one while `isChecking` is true and none otherwise. The bound comes from
the `isChecking` gate of `handleCardClick` (a click while a resolution is outstanding changes
nothing) and not from cancelling: a pending timer stays pending until it fires. -/
theorem one_resolution_outstanding (events : List Event) (w : World)
    (hrun : runEvents initialWorld events = some w)
    (hidle : restartsWhenIdle initialWorld events = true) :
    resolutionsOutstanding w ≤ 1 ∧
      (resolutionsOutstanding w = if w.gameState.isChecking then 1 else 0) ∧
      (∀ (cardId : Nat) (w2 : World), resolutionsOutstanding w = 1 →
        handleCardClick w cardId = some w2 → w2 = w) ∧
      ∀ (event : Event) (w2 : World), stepEvent w event = some w2 →
        ∀ cb ∈ w.timers, cb ∈ w2.timers ∨ event = Event.input (Input.fire cb) := by
  have hinv := outstanding_runEvents events initialWorld w rfl hrun hidle
  refine ⟨by rw [hinv]; split <;> omega, hinv, ?_, ?_⟩
  · intro cardId w2 hone hclick
    have hchk : w.gameState.isChecking = true := by
      by_contra hno
      rw [hinv, if_neg hno] at hone
      omega
    simp only [handleCardClick, hchk, if_true] at hclick
    exact (Option.some.inj hclick).symm
  · intro event w2 hstep cb hcb
    cases event with
    | input input =>
      cases input with
      | click cardId => exact Or.inl ((outstanding_click w w2 cardId hinv hstep).2 cb hcb)
      | fire callback =>
        rcases (outstanding_fire w w2 callback hinv hstep).2 cb hcb with h | h
        · exact Or.inl h
        · exact Or.inr (by rw [h])
    | startGame rnd level =>
      simp only [stepEvent, startGame_eq] at hstep
      rw [← Option.some.inj hstep]
      exact Or.inl hcb
    | restartGame rnd =>
      simp only [stepEvent, restartGame] at hstep
      split at hstep
      · rw [startGame_eq] at hstep
        rw [← Option.some.inj hstep]
        exact Or.inl hcb
      · rw [← Option.some.inj hstep]
        exact Or.inl hcb

theorem one_resolution_outstanding_witness :
    runEvents initialWorld restartAfterResolution = some sampleRestarted ∧
      restartsWhenIdle initialWorld restartAfterResolution = true ∧
      resolutionsOutstanding sampleRestarted ≤ 1 ∧ resolutionsOutstanding sampleRestarted = 1 :=
  ⟨rfl, rfl,
    (one_resolution_outstanding restartAfterResolution sampleRestarted rfl rfl).1, by decide⟩

theorem match_adjudication_witness :
    sampleOneUp.gameState.isChecking = false ∧ sampleOneUp.gameState.flippedCards = [0] ∧
      handleCardClick sampleOneUp 6 = some sampleResolving ∧
      ∃ (resolution : Callback) (w2 : World),
        step sampleResolving (Input.fire resolution) = some w2 ∧
          w2.gameState.flippedCards = [] ∧ w2.gameState.isChecking = false :=
  ⟨rfl, rfl, rfl,
    match match_adjudication sampleOneUp sampleResolving 0 6
      { id := 6, value := "🐶", isFlipped := false, isMatched := false } rfl rfl rfl rfl rfl rfl with
    | ⟨_, _, resolution, w2, _, _, _, _, _, _, hstep, _, _, hflipped, hchecking⟩ =>
      ⟨resolution, w2, hstep, hflipped, hchecking⟩⟩

theorem handleCardClick_blocked_witness :
    sampleResolving.gameState.isChecking = true ∧
      handleCardClick sampleResolving 3 = some sampleResolving :=
  ⟨rfl, (handleCardClick_blocked sampleResolving 3
    { id := 3, value := "🐹", isFlipped := false, isMatched := false } rfl (Or.inl rfl)).1⟩


end MemoryGame
